import Mathlib

/-!
# future_fee: extraction and rendering pipeline of m.go

A shallow embedding of `m.go`.  Go strings are Lean strings (sequences of
code points; the page text is valid UTF-8), Go `int` is `Int` (no value here
comes near 2^63), and `float64` is modelled by exact rationals.

The collaborators outside the repository are modelled by what they are
documented to do:

* `strings.Trim`, `strings.Split`, `strings.ReplaceAll`, `regexp` for the one
  pattern used, `cast.ToFloat64`, `fmt.Sprintf`;
* the goquery document is given by the texts the selectors of `getContent`
  read from it (`Doc`, `Panel`, `Tr`);
* the excelize file is the sequence of calls made on it (`File`), read back
  through `File.styleAt` and `File.valueAt`; whether `SaveAs` can write the
  file is decided by the file system and is an input of `toExcel`.

A run-time panic (index out of range) is the value `none` of an `Option`.
-/

namespace FutureFee

/-- Go's `error` values, by their message. -/
abbrev error := String

/-! ## Library functions used by m.go -/

/-- The call `strings.Trim(s, cutset)`: drops from both ends of `s` every
code point contained in `cutset`. -/
def strings.Trim (s cutset : String) : String :=
  ⟨((s.data.dropWhile (fun c => cutset.data.contains c)).reverse.dropWhile
      (fun c => cutset.data.contains c)).reverse⟩

/-- Splitting of a code point sequence around every occurrence of `sep`. -/
def strings.splitChars (sep : Char) : List Char → List (List Char)
  | [] => [[]]
  | c :: cs =>
    if c = sep then [] :: strings.splitChars sep cs
    else
      match strings.splitChars sep cs with
      | [] => [[c]]
      | p :: ps => (c :: p) :: ps

/-- The call `strings.Split(s, sep)` for a separator `sep` of one code point
(m.go splits on the full-width colon and on the approximation marker). -/
def strings.Split (s : String) (sep : Char) : List String :=
  (strings.splitChars sep s.data).map String.mk

/-- The call `strings.ReplaceAll(s, old, "")` for `old` of one code point. -/
def strings.ReplaceAll (s : String) (old : Char) : String :=
  ⟨s.data.filter (fun c => c ≠ old)⟩

/-- The call `reg.ReplaceAllString(s, "")` for `reg = \d+$`: the only match
of the pattern is the longest run of ASCII digits that ends the text, and it
is replaced by nothing. -/
def reg.ReplaceAllString (s : String) : String :=
  ⟨(s.data.reverse.dropWhile Char.isDigit).reverse⟩

/-- Value of a run of decimal digits. -/
def digitsValue (ds : List Char) : Nat :=
  ds.foldl (fun acc c => 10 * acc + (c.toNat - 48)) 0

/-- Leading sign of a numeric literal: whether it is negative, and the rest. -/
def readSign : List Char → Bool × List Char
  | '+' :: r => (false, r)
  | '-' :: r => (true, r)
  | cs => (false, cs)

/-- Whether a character may stand in a run of digits of a literal: a decimal
digit, or the underscore that separates digits. -/
def isDigitOrUnderscore (c : Char) : Bool :=
  c.isDigit || c == '_'

/-- Exponent part of a decimal literal: nothing, or `e`/`E`, an optional
sign, a digit, and then digits and underscores to the end of the text. -/
def readExponent : List Char → Option Int
  | [] => some 0
  | e :: r =>
    if e = 'e' ∨ e = 'E' then
      let (neg, ds) := readSign r
      if (ds.head?.map Char.isDigit).getD false ∧ ds.all isDigitOrUnderscore then
        let v : Int := digitsValue (ds.filter Char.isDigit)
        some (if neg then -v else v)
      else none
    else none

/-- The function `underscoreOK` of strconv on a decimal literal, after the
sign: every underscore follows a digit and is followed by a digit.  `saw` is
the kind of the last character seen: `^` for the start, `0` for a digit, `_`
for an underscore and `!` for any other. -/
def strconv.underscoreOKFrom : Char → List Char → Bool
  | saw, [] => saw != '_'
  | saw, c :: cs =>
    if c.isDigit then strconv.underscoreOKFrom '0' cs
    else if c = '_' then saw == '0' && strconv.underscoreOKFrom '_' cs
    else if saw = '_' then false
    else strconv.underscoreOKFrom '!' cs

/-- A decimal literal as read from a text: its sign, the digits of the
mantissa without the point, and the power of ten they are scaled by. -/
structure Decimal where
  neg : Bool
  mant : Nat
  exp : Int
  deriving DecidableEq

/-- The function `readFloat` of strconv on decimal literals, required to read
the whole text: optional sign, digits with an optional point (at least one
digit), optional decimal exponent, with underscores between digits; `none` is
a syntax error. -/
def strconv.readFloat (s : String) : Option Decimal :=
  let (neg, cs) := readSign s.data
  let ip := cs.takeWhile isDigitOrUnderscore
  let cs := cs.dropWhile isDigitOrUnderscore
  let (fp, cs) := match cs with
    | '.' :: r => (r.takeWhile isDigitOrUnderscore, r.dropWhile isDigitOrUnderscore)
    | _ => ([], cs)
  let ip := ip.filter Char.isDigit
  let fp := fp.filter Char.isDigit
  if ip = [] ∧ fp = [] then none
  else
    match readExponent cs with
    | none => none
    | some e =>
      if s.data.contains '_' && !strconv.underscoreOKFrom '^' (readSign s.data).2 then none
      else some ⟨neg, digitsValue (ip ++ fp), e - (fp.length : Int)⟩

/-- The number a decimal literal denotes. -/
def Decimal.value (d : Decimal) : ℚ :=
  let v : ℚ :=
    if 0 ≤ d.exp then (d.mant : ℚ) * 10 ^ d.exp.toNat else (d.mant : ℚ) / 10 ^ (-d.exp).toNat
  if d.neg then -v else v

/-- The call `strconv.ParseFloat(s, 64)` on decimal literals; `none` is an
error.  The value is the exact rational the literal denotes: rounding to
binary64, range errors, infinities, NaN and hexadecimal literals are outside
this model. -/
def strconv.ParseFloat (s : String) : Option ℚ :=
  (strconv.readFloat s).map Decimal.value

/-- The call `cast.ToFloat64(s)` on a string: the parsed number, and 0 when
the text does not parse (the error of `ToFloat64E` is dropped). -/
def cast.ToFloat64 (s : String) : ℚ :=
  (strconv.ParseFloat s).getD 0

/-- Indexing `xs[i]` of a Go slice: a run-time panic (`none`) outside
`0 ≤ i < len(xs)`. -/
def index (xs : List String) (i : Int) : Option String :=
  if i < 0 then none else xs.get? i.toNat

/-! ## Data model -/

/-- The struct `Row` of m.go. -/
structure Row where
  Name : String := ""
  Code : String := ""
  NameCode : String := ""
  Price : ℚ := 0
  CS : ℚ := 0
  YSSZ : ℚ := 0
  OpenBuyMargin : String := ""
  OpenSellMargin : String := ""
  FeeUnit : String := ""
  BuyFeeStr : String := ""
  BuyFee : ℚ := 0
  SellTodayFeeStr : String := ""
  SellTodayFee : ℚ := 0
  SellYesterdayFeeStr : String := ""
  SellYesterdayFee : ℚ := 0
  OneDotProfile : ℚ := 0
  BuySellFee : ℚ := 0
  OneDotNetProfile : ℚ := 0
  deriving DecidableEq

/-- A Go `map[int]*[]*Row`, by its entries; keys are distinct. -/
abbrev RowMap := List (Int × List Row)

/-- The assignment `m[k] = v` on a map. -/
def RowMap.assign (m : RowMap) (k : Int) (v : List Row) : RowMap :=
  m.filter (fun e => e.1 ≠ k) ++ [(k, v)]

/-! ## ColumnAddress -/

/-- The table `ExcelChar` of m.go. -/
def ExcelChar : List String :=
  ["", "A", "B", "C", "D", "E", "F", "G", "H", "I", "J", "K", "L", "M", "N", "O", "P", "Q",
   "R", "S", "T", "U", "V", "W", "X", "Y", "Z"]

/-- The function `ConvertNumToChar` of m.go.  The result is `none` when the
call panics, and otherwise the returned pair of string and error (`none` for
a nil error).  Go's `%` and `/` truncate toward zero. -/
def ConvertNumToChar (num : Int) : Option (String × Option error) :=
  if num < 27 then
    (index ExcelChar num).map (fun s => (s, none))
  else
    let k := Int.tmod num 26
    let k := if k = 0 then 26 else k
    let v := Int.tdiv (num - k) 26
    match ConvertNumToChar v with
    | none => none
    | some (_, some err) => some ("", some err)
    | some (col, none) => (index ExcelChar k).map (fun s => (col ++ s, none))
termination_by num.toNat
decreasing_by
  have hm : Int.tmod num 26 = num % 26 := Int.tmod_eq_emod (by omega) (by omega)
  by_cases h0 : Int.tmod num 26 = 0
  · simp only [h0, dite_true]
    rw [Int.tdiv_eq_ediv (by omega) (by omega)]
    omega
  · simp only [h0, dite_false]
    rw [Int.tdiv_eq_ediv (by omega) (by omega)]
    omega

/-- The function `GetColumnName` of m.go: the error of `ConvertNumToChar` is
dropped, and `%d` prints the row in decimal. -/
def GetColumnName (c row_index : Int) : Option String :=
  match ConvertNumToChar c with
  | none => none
  | some (letter, _) => some (letter ++ toString row_index)

/-! ## RecordParser and DocumentExtractor (`getContent`) -/

/-- A child of `tbody`: its `class` attribute, if any, and the texts of its
children. -/
structure Tr where
  cls : Option String
  td : List String

/-- A `.panel-primary` child of the container: the text of its
`.panel-heading` and the children of the `tbody` of its table. -/
structure Panel where
  heading : String
  tbody : List Tr

/-- What `getContent` reads from the parsed page: the text of `h1 small` in
the page header, and the panels in document order. -/
structure Doc where
  h1_small : String
  panels : List Panel

/-- The call `str_sub.Eq(i).Text()`: the text of the `i`-th child, and the
empty text when there is no such child. -/
def Tr.Eq_Text (tr : Tr) (i : Nat) : String :=
  tr.td.getD i ""

/-- The name of a row: `row.Name` as computed in the row closure. -/
def Tr.Name (tr : Tr) : String :=
  reg.ReplaceAllString (strings.Trim (tr.Eq_Text 0) " ")

/-- The guard of the row closure: the name is none of the eight excluded. -/
def nameKept (name : String) : Bool :=
  name != "中证1000股指" && name != "沪深300股指" && name != "上证50股指" && name != "中证500股指" &&
    name != "债十" && name != "债五" && name != "债三十" && name != "债二"

/-- The numeric fee of a fee cell, from its trimmed text `feeStr`: the
statements after `row.BuyFeeStr = ...` (and the same for the two close fees). -/
def feeValue (feeStr : String) : ℚ :=
  let feeStrs := strings.Split feeStr '≈'
  if feeStrs.length ≤ 1 then cast.ToFloat64 feeStr
  else cast.ToFloat64 (strings.Trim (feeStrs.getD 1 "") " ")

/-- The record the row closure of `getContent` fills in for a row that is
kept. -/
def getContent_row (tr : Tr) : Row :=
  let Name := tr.Name
  let Code := strings.Trim (tr.Eq_Text 1) " "
  let BuyFeeStr := strings.Trim (tr.Eq_Text 8) " "
  let SellTodayFeeStr := strings.Trim (tr.Eq_Text 9) " "
  let SellYesterdayFeeStr := strings.Trim (tr.Eq_Text 10) " "
  { Name := Name
    Code := Code
    NameCode := Name ++ "(" ++ Code ++ ")"
    Price := cast.ToFloat64 (strings.Trim (tr.Eq_Text 2) " ")
    CS := cast.ToFloat64 (strings.Trim (tr.Eq_Text 3) " ")
    YSSZ := cast.ToFloat64 (strings.Trim (tr.Eq_Text 4) " ")
    OpenBuyMargin := strings.Trim (tr.Eq_Text 5) " "
    OpenSellMargin := strings.Trim (tr.Eq_Text 6) " "
    FeeUnit := strings.Trim (tr.Eq_Text 7) " "
    BuyFeeStr := BuyFeeStr
    BuyFee := feeValue BuyFeeStr
    SellTodayFeeStr := SellTodayFeeStr
    SellTodayFee := feeValue SellTodayFeeStr
    SellYesterdayFeeStr := SellYesterdayFeeStr
    SellYesterdayFee := feeValue SellYesterdayFeeStr
    OneDotProfile := cast.ToFloat64 (strings.Trim (tr.Eq_Text 11) " ")
    BuySellFee := cast.ToFloat64 (strings.Trim (tr.Eq_Text 12) " ")
    OneDotNetProfile := cast.ToFloat64 (strings.Trim (tr.Eq_Text 13) " ") }

/-- The body of the row closure of `getContent` on the state
`(rows, data_size)`: a row whose name is kept is appended and counted. -/
def getContent_tr (st : List Row × Int) (tr : Tr) : List Row × Int :=
  let (rows, data_size) := st
  if nameKept tr.Name then (rows ++ [getContent_row tr], data_size + 1)
  else (rows, data_size)

/-- The rows the selector `[class !=active]` keeps. -/
def Panel.trs (s : Panel) : List Tr :=
  s.tbody.filter (fun tr => tr.cls ≠ some "active")

/-- The state the panel loop of `getContent` updates. -/
structure Extracted where
  exchange_names : List String
  dataes : RowMap
  data_size : Int

/-- The body of the panel closure of `getContent`, for the panel `s` at
position `i`. -/
def getContent_panel (st : Extracted) (i : Int) (s : Panel) : Extracted :=
  let exchange_name := strings.Trim s.heading " "
  let (rows, data_size) := s.trs.foldl getContent_tr ([], st.data_size)
  { exchange_names := st.exchange_names ++ [exchange_name]
    dataes := st.dataes.assign i rows
    data_size := data_size }

/-- The loop `Each` over the panels, from position `i` on. -/
def getContent_panels : Int → List Panel → Extracted → Extracted
  | _, [], st => st
  | i, s :: ss, st => getContent_panels (i + 1) ss (getContent_panel st i s)

/-- The function `getContent` of m.go from the parsed page on: the title,
the exchange names, the groups and the total count, or the error.  The
request, the check of its status and the removal of newlines and of the
currency glyphs from the markup come before the page is parsed. -/
def getContent (doc : Doc) : Except error (String × Extracted) :=
  let headers := strings.Split doc.h1_small '：'
  if headers.length ≤ 1 then .error "header error"
  else
    let header := "期货手续费和保证金" ++ headers.getD 1 ""
    .ok (header, getContent_panels 0 doc.panels ⟨[], [], 0⟩)

/-! ### The extraction, listed -/

/-- The records of a panel: those of its rows that pass the selector and
whose name is kept, in order. -/
def Panel.records (s : Panel) : List Row :=
  (s.trs.filter (fun tr => nameKept tr.Name)).map getContent_row

/-- The groups of the panels, keyed by position from `i` on. -/
def groupsFrom : Int → List Panel → RowMap
  | _, [] => []
  | i, s :: ss => (i, s.records) :: groupsFrom (i + 1) ss

/-! ### Texts around the approximation marker -/

/-- The text before the first approximation marker. -/
def beforeMarker (s : String) : String :=
  ⟨s.data.takeWhile (fun c => c ≠ '≈')⟩

/-- The text after the first approximation marker. -/
def afterMarker (s : String) : String :=
  ⟨(s.data.dropWhile (fun c => c ≠ '≈')).drop 1⟩

/-- The text after the last approximation marker. -/
def afterLastMarker (s : String) : String :=
  ⟨(s.data.reverse.takeWhile (fun c => c ≠ '≈')).reverse⟩

/-- The text between the first approximation marker and the next one, or the
end of the text when there is no other. -/
def betweenMarkers (s : String) : String :=
  beforeMarker (afterMarker s)

/-- The rule the fee of a cell text follows: the fee is the parse of the whole
text when it has no marker, of the trimmed text between the first marker and
the next when it has one, and so of the trimmed text after the marker when it
has exactly one. -/
def feeRule (text : String) (fee : ℚ) : Prop :=
  ('≈' ∉ text.data → fee = cast.ToFloat64 text) ∧
  ('≈' ∈ text.data → fee = cast.ToFloat64 (strings.Trim (betweenMarkers text) " ")) ∧
  (text.data.count '≈' = 1 → fee = cast.ToFloat64 (strings.Trim (afterMarker text) " "))

/-! ### Example rows and pages -/

/-- The excluded-name row of the specification. -/
def excludedTr : Tr :=
  ⟨none, ["中证1000股指888", "CODE", "1", "1", "1", "5%", "5%", "元", "10", "10", "10", "1", "1",
    "1"]⟩

/-- A row with an open fee of 35 and no other value over a threshold. -/
def copperTr : Tr :=
  ⟨none, ["铜2501", "cu2501", "74000", "5", "370000", "10%", "10%", "元", "35", "10", "10", "50",
    "20", "30"]⟩

/-- A row whose fee cells are the three texts of the specification. -/
def feeTr : Tr :=
  ⟨none, ["铜2501", "cu2501", "74000", "5", "370000", "10%", "10%", "元", "开仓:10.5元≈12.3", "15",
    "abc", "50", "20", "30"]⟩

/-- A row of two cells. -/
def shortTr : Tr :=
  ⟨none, ["铜2501", "cu2501"]⟩

/-- A page with one exchange section of two rows, one of them excluded. -/
def examplePage : Doc :=
  { h1_small := "2024年最新期货保证金和手续费查询 最近更新：2024-11-19 20:33:51"
    panels := [{ heading := " 上期所主力合约 ", tbody := [excludedTr, copperTr] }] }

/-- A page with a title and no exchange section. -/
def emptyPage : Doc :=
  { h1_small := "2024年最新期货保证金和手续费查询 最近更新：2024-11-19 20:33:51"
    panels := [] }

/-- A record named `a(1)` of the first group. -/
def rowA : Row := { NameCode := "a(1)" }

/-- A record named `b(2)` of the second group. -/
def rowB : Row := { NameCode := "b(2)" }

/-- A record whose only value over a threshold is a negative net profit. -/
def lossRow : Row := { NameCode := "c(3)", OneDotNetProfile := -1 }

/-! ## ReportRenderer (`toExcel`) -/

/-- The three styles `toExcel` creates with `NewStyle`. -/
inductive Style
  | red_font
  | default_style
  | bold_font
  deriving DecidableEq

/-- A value passed to `SetCellValue`. -/
inductive CellValue
  | str (s : String)
  | num (x : ℚ)
  deriving DecidableEq

/-- A call made on the excelize file. -/
inductive Call
  | SetRowHeight (row : Int) (height : ℚ)
  | SetColWidth (startCol endCol : String) (width : ℚ)
  | SetCellStyle (hCell vCell : String) (styleID : Style)
  | SetCellValue (cell : String) (value : CellValue)
  | SetActiveSheet
  | SaveAs (name : String)
  deriving DecidableEq

/-- The excelize file, as the calls made on it so far, oldest first.  A call
on a cell name that has no coordinates is an error of the library and changes
no cell. -/
abbrev File := List Call

/-- The call `excelize.ColumnNameToNumber` on a run of letters: its value as
a numeral in base 26 with the digits A to Z for 1 to 26. -/
def ColumnNameToNumber (letters : List Char) : Nat :=
  letters.foldl (fun acc c => 26 * acc + (c.toUpper.toNat - 64)) 0

/-- The constant `excelize.TotalRows`: the number of rows of a sheet. -/
def excelize.TotalRows : Nat := 1048576

/-- The constant `excelize.MaxColumns`: the number of columns of a sheet. -/
def excelize.MaxColumns : Nat := 16384

/-- The call `excelize.CellNameToCoordinates` on a name made of letters
followed by decimal digits: the row is positive and at most `TotalRows`, the
column at most `MaxColumns`; `none` is an error.  Names of another form (a
sign before the row, `$` marks) are outside this model and read as errors. -/
def CellNameToCoordinates (cell : String) : Option (Nat × Nat) :=
  let letters := cell.data.takeWhile Char.isAlpha
  let digits := cell.data.dropWhile Char.isAlpha
  if letters ≠ [] ∧ digits ≠ [] ∧ digits.all Char.isDigit ∧ 0 < digitsValue digits ∧
      digitsValue digits ≤ excelize.TotalRows ∧
      ColumnNameToNumber letters ≤ excelize.MaxColumns then
    some (ColumnNameToNumber letters, digitsValue digits)
  else none

/-- Whether `cell` lies in the rectangle spanned by `hCell` and `vCell`. -/
def inRange (hCell vCell cell : String) : Bool :=
  match CellNameToCoordinates hCell, CellNameToCoordinates vCell, CellNameToCoordinates cell with
  | some (c1, r1), some (c2, r2), some (c, r) =>
    decide (min c1 c2 ≤ c ∧ c ≤ max c1 c2 ∧ min r1 r2 ≤ r ∧ r ≤ max r1 r2)
  | _, _, _ => false

/-- The style a call gives to `cell`, if it gives one. -/
def Call.styleOn (cell : String) : Call → Option Style
  | .SetCellStyle hCell vCell styleID => if inRange hCell vCell cell then some styleID else none
  | _ => none

/-- The value a call gives to `cell`, if it gives one. -/
def Call.valueOn (cell : String) : Call → Option CellValue
  | .SetCellValue name value =>
    if CellNameToCoordinates name = CellNameToCoordinates cell ∧
        (CellNameToCoordinates cell).isSome then some value else none
  | _ => none

/-- The style of `cell` in the file: each `SetCellStyle` whose range contains
the cell replaces its style, so the last one stands. -/
def File.styleAt (f : File) (cell : String) : Option Style :=
  f.foldl (fun cur call => (call.styleOn cell).or cur) none

/-- The value of `cell` in the file: each `SetCellValue` on the cell replaces
its value, so the last one stands. -/
def File.valueAt (f : File) (cell : String) : Option CellValue :=
  f.foldl (fun cur call => (call.valueOn cell).or cur) none

/-- The slice `column_titles` of `toExcel`. -/
def column_titles : List String :=
  ["", "品种代码", "现价", "买开保证金", "卖开保证金", "开仓手续费", "平今手续费", "平昨手续费", "每跳毛利",
   "手续费(开+平今)", "每跳净利"]

/-- The call `f.SetCellValue(sheet_name, cell, value)` in the loops of
`toExcel`, on the file of a run that may have panicked (`none`): a panic in
computing the cell name, or before, leaves the run panicked. -/
def SetCellValue (f : Option File) (cell : Option String) (value : CellValue) : Option File :=
  match f, cell with
  | some f, some cell => some (f ++ [.SetCellValue cell value])
  | _, _ => none

/-- The call `f.SetCellStyle(sheet_name, hCell, vCell, styleID)` in the loops
of `toExcel`, where its error is dropped. -/
def SetCellStyle (f : Option File) (hCell vCell : Option String) (styleID : Style) :
    Option File :=
  match f, hCell, vCell with
  | some f, some hCell, some vCell => some (f ++ [.SetCellStyle hCell vCell styleID])
  | _, _, _ => none

/-- The body of the inner loop of `toExcel` for one record, on the state
`(f, row_index)`. -/
def toExcel_row (st : Option File × Int) (row : Row) : Option File × Int :=
  let f := st.1
  let row_index := st.2 + 1
  let name_set_red := false
  let c : Int := 1
  let f := SetCellValue f (GetColumnName c row_index) (.str "")
  let c := c + 1
  let f := SetCellValue f (GetColumnName c row_index) (.str row.NameCode)
  let c := c + 1
  let f := SetCellValue f (GetColumnName c row_index) (.num row.Price)
  let c := c + 1
  let f := SetCellValue f (GetColumnName c row_index) (.str row.OpenBuyMargin)
  let c := c + 1
  let f := SetCellValue f (GetColumnName c row_index) (.str row.OpenSellMargin)
  let c := c + 1
  let f := SetCellValue f (GetColumnName c row_index) (.num row.BuyFee)
  let (f, name_set_red) :=
    if row.BuyFee > 30 then
      (SetCellStyle f (GetColumnName c row_index) (GetColumnName c row_index) .red_font, true)
    else (f, name_set_red)
  let c := c + 1
  let f := SetCellValue f (GetColumnName c row_index) (.num row.SellTodayFee)
  let (f, name_set_red) :=
    if row.SellTodayFee > 30 then
      (SetCellStyle f (GetColumnName c row_index) (GetColumnName c row_index) .red_font, true)
    else (f, name_set_red)
  let c := c + 1
  let f := SetCellValue f (GetColumnName c row_index) (.num row.SellYesterdayFee)
  let (f, name_set_red) :=
    if row.SellYesterdayFee > 30 then
      (SetCellStyle f (GetColumnName c row_index) (GetColumnName c row_index) .red_font, true)
    else (f, name_set_red)
  let c := c + 1
  let f := SetCellValue f (GetColumnName c row_index) (.num row.OneDotProfile)
  let c := c + 1
  let f := SetCellValue f (GetColumnName c row_index) (.num row.BuySellFee)
  let (f, name_set_red) :=
    if row.BuySellFee > 20 then
      (SetCellStyle f (GetColumnName c row_index) (GetColumnName c row_index) .red_font, true)
    else (f, name_set_red)
  let c := c + 1
  let f := SetCellValue f (GetColumnName c row_index) (.num row.OneDotNetProfile)
  let f :=
    if row.OneDotNetProfile < 0 then
      SetCellStyle f (GetColumnName c row_index) (GetColumnName c row_index) .red_font
    else f
  let f :=
    if name_set_red then
      SetCellStyle f (GetColumnName 2 row_index) (GetColumnName 2 row_index) .red_font
    else f
  (f, row_index)

/-- The inner loop of `toExcel` over the records of one group. -/
def toExcel_rows (st : Option File × Int) (rows : List Row) : Option File × Int :=
  rows.foldl toExcel_row st

/-- The outer loop of `toExcel` over the map entries, in the order the
`range` statement visits them. -/
def toExcel_groups (st : Option File × Int) (visit : List (Int × List Row)) :
    Option File × Int :=
  visit.foldl (fun st e => toExcel_rows st e.2) st

/-- The body of the loop of `toExcel` that writes the column titles, for the
column index `c`; indexing `column_titles` may panic. -/
def toExcel_title (row_index : Int) (f : Option File) (c : Int) : Option File :=
  match index column_titles c with
  | none => none
  | some title => SetCellValue f (GetColumnName (c + 1) row_index) (.str title)

/-- The call `f.SetCellStyle(sheet, hCell, vCell, styleID)` where `toExcel`
checks its error: it fails on a cell name that has no coordinates (no
positive row, or a row beyond `TotalRows`). -/
def excelize.SetCellStyle (f : File) (hCell vCell : String) (styleID : Style) :
    Except error File :=
  if (CellNameToCoordinates hCell).isSome ∧ (CellNameToCoordinates vCell).isSome then
    .ok (f ++ [.SetCellStyle hCell vCell styleID])
  else .error "invalid cell name"

/-- The function `toExcel` of m.go when its `range` over the map visits the
entries in the order `visit`, and `f.SaveAs(name)` returns `SaveAs name`
(`none` for a nil error; the file system decides): `none` for a panic, and
otherwise the returned error or the file as saved.  `NewSheet("Sheet1")`
returns the sheet a new file already has. -/
def toExcelIn (visit : List (Int × List Row)) (header : String) (data_size : Int)
    (SaveAs : String → Option error) : Option (Except error File) :=
  let f : File := []
  let f := f ++ [.SetRowHeight 1 8]
  let f := f ++ (List.range (data_size + 1).toNat).map
    (fun i => Call.SetRowHeight (2 + (i : Int)) 28)
  let f := f ++ [.SetColWidth "A" "A" (3 / 2)]
  let f := f ++ [.SetColWidth "B" "K" 18]
  match excelize.SetCellStyle f "B2" ("K" ++ toString (data_size + 2)) .default_style with
  | .error err => some (.error err)
  | .ok f =>
    match excelize.SetCellStyle f "B2" "K2" .bold_font with
    | .error err => some (.error err)
    | .ok f =>
      let row_index : Int := 2
      let f := ((List.range 11).map Int.ofNat).foldl (toExcel_title row_index) (some f)
      let (f, _) := toExcel_groups (f, row_index) visit
      match f with
      | none => none
      | some f =>
        let f := f ++ [.SetActiveSheet]
        let header := strings.ReplaceAll header ':'
        match SaveAs (header ++ ".xlsx") with
        | some err => some (.error err)
        | none => some (.ok (f ++ [.SaveAs (header ++ ".xlsx")]))

/-! ### The calls of `toExcel`, listed -/

/-- The name `GetColumnName` gives to the cell in column `c` (1 to 26) and
row `r`. -/
def cellName (c : Nat) (r : Int) : String :=
  String.singleton (Char.ofNat (64 + c)) ++ toString r

/-- The calls `toExcel` makes for one record written at row `r`. -/
def rowCalls (row : Row) (r : Int) : File :=
  [Call.SetCellValue (cellName 1 r) (.str ""),
    Call.SetCellValue (cellName 2 r) (.str row.NameCode),
    Call.SetCellValue (cellName 3 r) (.num row.Price),
    Call.SetCellValue (cellName 4 r) (.str row.OpenBuyMargin),
    Call.SetCellValue (cellName 5 r) (.str row.OpenSellMargin),
    Call.SetCellValue (cellName 6 r) (.num row.BuyFee)] ++
  (if row.BuyFee > 30 then [Call.SetCellStyle (cellName 6 r) (cellName 6 r) .red_font] else []) ++
  [Call.SetCellValue (cellName 7 r) (.num row.SellTodayFee)] ++
  (if row.SellTodayFee > 30 then [Call.SetCellStyle (cellName 7 r) (cellName 7 r) .red_font]
    else []) ++
  [Call.SetCellValue (cellName 8 r) (.num row.SellYesterdayFee)] ++
  (if row.SellYesterdayFee > 30 then [Call.SetCellStyle (cellName 8 r) (cellName 8 r) .red_font]
    else []) ++
  [Call.SetCellValue (cellName 9 r) (.num row.OneDotProfile),
    Call.SetCellValue (cellName 10 r) (.num row.BuySellFee)] ++
  (if row.BuySellFee > 20 then [Call.SetCellStyle (cellName 10 r) (cellName 10 r) .red_font]
    else []) ++
  [Call.SetCellValue (cellName 11 r) (.num row.OneDotNetProfile)] ++
  (if row.OneDotNetProfile < 0 then
    [Call.SetCellStyle (cellName 11 r) (cellName 11 r) .red_font] else []) ++
  (if row.BuyFee > 30 ∨ row.SellTodayFee > 30 ∨ row.SellYesterdayFee > 30 ∨ row.BuySellFee > 20
    then [Call.SetCellStyle (cellName 2 r) (cellName 2 r) .red_font] else [])

/-- The values `toExcel` writes for a record, by column from A on. -/
def recordValues (row : Row) : List CellValue :=
  [.str "", .str row.NameCode, .num row.Price, .str row.OpenBuyMargin, .str row.OpenSellMargin,
    .num row.BuyFee, .num row.SellTodayFee, .num row.SellYesterdayFee, .num row.OneDotProfile,
    .num row.BuySellFee, .num row.OneDotNetProfile]

/-- The columns of a record in which `toExcel` sets the alert style. -/
def alertColumn (row : Row) (c : Nat) : Prop :=
  (c = 6 ∧ row.BuyFee > 30) ∨ (c = 7 ∧ row.SellTodayFee > 30) ∨
  (c = 8 ∧ row.SellYesterdayFee > 30) ∨ (c = 10 ∧ row.BuySellFee > 20) ∨
  (c = 11 ∧ row.OneDotNetProfile < 0) ∨
  (c = 2 ∧ (row.BuyFee > 30 ∨ row.SellTodayFee > 30 ∨ row.SellYesterdayFee > 30 ∨
    row.BuySellFee > 20))

/-- The calls `toExcel` makes for a run of records, the first written at row
`i + 1`. -/
def rowsCalls : Int → List Row → File
  | _, [] => []
  | i, row :: rows => rowCalls row (i + 1) ++ rowsCalls (i + 1) rows

/-- The calls `toExcel` makes before its loop over the groups. -/
def headCalls (data_size : Int) : File :=
  [Call.SetRowHeight 1 8] ++
  (List.range (data_size + 1).toNat).map (fun i => Call.SetRowHeight (2 + (i : Int)) 28) ++
  [Call.SetColWidth "A" "A" (3 / 2), Call.SetColWidth "B" "K" 18,
    Call.SetCellStyle "B2" ("K" ++ toString (data_size + 2)) .default_style,
    Call.SetCellStyle "B2" "K2" .bold_font] ++
  (List.range 11).map
    (fun c => Call.SetCellValue (cellName (c + 1) 2) (.str (column_titles.getD c "")))

/-- The records of the groups, in the order the groups are visited. -/
def recordsIn (visit : List (Int × List Row)) : List Row :=
  visit.flatMap (fun e => e.2)

/-- The function `toExcel` of m.go: every outcome it can have when
`f.SaveAs(name)` returns `SaveAs name`.  The order in which a Go `range`
visits the entries of a map is not specified, so each permutation of the
entries is a possible run. -/
def toExcel (header : String) (exchange_names : List String) (dataes : RowMap)
    (data_size : Int) (SaveAs : String → Option error) : List (Option (Except error File)) :=
  let _ := exchange_names
  dataes.permutations.map (fun visit => toExcelIn visit header data_size SaveAs)

/-- A file system on which every `SaveAs` succeeds. -/
def savesAll : String → Option error :=
  fun _ => none

/-! # Theorems -/

/-! ## ColumnAddress: unfolding and the letters -/

theorem ConvertNumToChar_lt (num : Int) (h : num < 27) :
    ConvertNumToChar num = (index ExcelChar num).map (fun s => (s, none)) := by
  rw [ConvertNumToChar, if_pos h]

theorem ConvertNumToChar_ge (num : Int) (h : 27 ≤ num) :
    ConvertNumToChar num =
      match ConvertNumToChar ((num - ((num - 1) % 26 + 1)) / 26) with
      | none => none
      | some (_, some err) => some ("", some err)
      | some (col, none) =>
        (index ExcelChar ((num - 1) % 26 + 1)).map (fun s => (col ++ s, none)) := by
  have hm : Int.tmod num 26 = num % 26 := Int.tmod_eq_emod (by omega) (by omega)
  have hk : (if Int.tmod num 26 = 0 then (26 : Int) else Int.tmod num 26) = (num - 1) % 26 + 1 := by
    rw [hm]; split <;> omega
  rw [ConvertNumToChar, if_neg (by omega)]
  simp only [hk]
  rw [Int.tdiv_eq_ediv (by omega) (by omega)]

/-- The letter with number `k` (1 for A, 26 for Z). -/
theorem index_ExcelChar (k : Int) (h1 : 1 ≤ k) (h26 : k ≤ 26) :
    index ExcelChar k = some (String.singleton (Char.ofNat (64 + k.toNat))) := by
  interval_cases k <;> rfl

theorem letter_isUpper (k : Nat) (h1 : 1 ≤ k) (h26 : k ≤ 26) :
    (Char.ofNat (64 + k)).isUpper = true := by
  interval_cases k <;> rfl

theorem letter_toNat (k : Nat) (h1 : 1 ≤ k) (h26 : k ≤ 26) :
    (Char.ofNat (64 + k)).toNat = 64 + k := by
  interval_cases k <;> rfl

theorem isUpper_bounds (c : Char) (h : c.isUpper = true) : 65 ≤ c.toNat ∧ c.toNat ≤ 90 := by
  simp only [Char.isUpper, Bool.and_eq_true, decide_eq_true_eq] at h
  exact ⟨h.1, h.2⟩

theorem ofNat_toNat_upper (c : Char) (h : c.isUpper = true) :
    Char.ofNat (64 + (c.toNat - 64)) = c := by
  have hb := isUpper_bounds c h
  have : 64 + (c.toNat - 64) = c.toNat := by omega
  rw [this]
  exact Char.ofNat_toNat c

/-- Value of a column name read as a bijective base-26 numeral. -/
theorem ConvertNumToChar_one_letter (n : Int) (h1 : 1 ≤ n) (h26 : n ≤ 26) :
    ConvertNumToChar n = some (String.singleton (Char.ofNat (64 + n.toNat)), none) := by
  rw [ConvertNumToChar_lt n (by omega), index_ExcelChar n h1 h26]; rfl

theorem ConvertNumToChar_two_letters (n : Int) (h27 : 27 ≤ n) (h702 : n ≤ 702) :
    ConvertNumToChar n =
      some (String.singleton (Char.ofNat (64 + ((n - ((n - 1) % 26 + 1)) / 26).toNat)) ++
        String.singleton (Char.ofNat (64 + ((n - 1) % 26 + 1).toNat)), none) := by
  rw [ConvertNumToChar_ge n h27,
    ConvertNumToChar_one_letter ((n - ((n - 1) % 26 + 1)) / 26) (by omega) (by omega),
    index_ExcelChar ((n - 1) % 26 + 1) (by omega) (by omega)]
  rfl

theorem letter_toUpper (k : Nat) (h1 : 1 ≤ k) (h26 : k ≤ 26) :
    (Char.ofNat (64 + k)).toUpper.toNat = 64 + k := by
  interval_cases k <;> rfl

theorem singleton_data (c : Char) : (String.singleton c).data = [c] := rfl

theorem two_letters_data (a b : Char) :
    (String.singleton a ++ String.singleton b).data = [a, b] := rfl

/-- On 1..702 the result is one or two capital letters whose value in base 26
(digits 1 to 26) is the number converted. -/
theorem ConvertNumToChar_spec (n : Int) (h1 : 1 ≤ n) (h702 : n ≤ 702) :
    ∃ s : String, ConvertNumToChar n = some (s, none) ∧ (s.length = 1 ∨ s.length = 2) ∧
      (∀ c ∈ s.data, c.isUpper = true) ∧ ColumnNameToNumber s.data = n.toNat := by
  by_cases h : n ≤ 26
  · refine ⟨_, ConvertNumToChar_one_letter n h1 h, Or.inl rfl, ?_, ?_⟩
    · intro c hc
      rw [singleton_data, List.mem_singleton] at hc
      rw [hc]
      exact letter_isUpper _ (by omega) (by omega)
    · rw [singleton_data]
      simp only [ColumnNameToNumber, List.foldl_cons, List.foldl_nil]
      rw [letter_toUpper _ (by omega) (by omega)]
      omega
  · refine ⟨_, ConvertNumToChar_two_letters n (by omega) h702, Or.inr rfl, ?_, ?_⟩
    · intro c hc
      rw [two_letters_data] at hc
      simp only [List.mem_cons, List.mem_singleton, List.not_mem_nil, or_false] at hc
      rcases hc with hc | hc <;> rw [hc] <;> exact letter_isUpper _ (by omega) (by omega)
    · rw [two_letters_data]
      simp only [ColumnNameToNumber, List.foldl_cons, List.foldl_nil]
      rw [letter_toUpper _ (by omega) (by omega), letter_toUpper _ (by omega) (by omega)]
      omega

theorem string_eq_of_data (s : String) (l : List Char) (h : s.data = l) : s = ⟨l⟩ := by
  cases s; simp_all

/-! ## Decimal row numbers and cell coordinates -/

theorem digitChar_isDigit (d : Nat) (h : d < 10) :
    (Nat.digitChar d).isDigit = true ∧ (Nat.digitChar d).toNat - 48 = d ∧
      (Nat.digitChar d).isAlpha = false := by
  interval_cases d <;> exact ⟨rfl, rfl, rfl⟩

theorem digitsValue_append (l : List Char) (d : Char) :
    digitsValue (l ++ [d]) = 10 * digitsValue l + (d.toNat - 48) := by
  simp [digitsValue, List.foldl_append]

theorem toDigitsCore_acc (fuel : Nat) : ∀ (n : Nat) (ds : List Char),
    Nat.toDigitsCore 10 fuel n ds = Nat.toDigitsCore 10 fuel n [] ++ ds := by
  induction fuel with
  | zero => intro n ds; simp [Nat.toDigitsCore]
  | succ fuel ih =>
    intro n ds
    simp only [Nat.toDigitsCore]
    split
    · simp
    · rw [ih (n / 10) (Nat.digitChar (n % 10) :: ds), ih (n / 10) [Nat.digitChar (n % 10)]]
      simp

theorem toDigitsCore_spec (fuel : Nat) : ∀ n : Nat, n < fuel →
    digitsValue (Nat.toDigitsCore 10 fuel n []) = n ∧
      (Nat.toDigitsCore 10 fuel n []).all Char.isDigit = true ∧
      Nat.toDigitsCore 10 fuel n [] ≠ [] := by
  induction fuel with
  | zero => intro n h; omega
  | succ fuel ih =>
    intro n h
    have hd := digitChar_isDigit (n % 10) (Nat.mod_lt n (by decide))
    simp only [Nat.toDigitsCore]
    split
    · rename_i h0
      refine ⟨?_, ?_, by simp⟩
      · have := digitsValue_append [] (Nat.digitChar (n % 10))
        simp only [List.nil_append] at this
        rw [this, hd.2.1]
        simp [digitsValue]
        omega
      · simp [hd.1]
    · rename_i h0
      have hlt : n / 10 < fuel := by omega
      obtain ⟨h1, h2, h3⟩ := ih (n / 10) hlt
      rw [toDigitsCore_acc]
      refine ⟨?_, ?_, by simp [h3]⟩
      · rw [digitsValue_append, h1, hd.2.1]; omega
      · simp [List.all_append, h2, hd.1]

theorem toString_data (r : Int) (h : 0 ≤ r) :
    (toString r).data = Nat.toDigitsCore 10 (r.toNat + 1) r.toNat [] := by
  obtain ⟨n, rfl⟩ := Int.eq_ofNat_of_zero_le h
  rfl

theorem takeWhile_isAlpha_digits (ds : List Char) (h : ds.all Char.isDigit = true) :
    ds.takeWhile Char.isAlpha = [] ∧ ds.dropWhile Char.isAlpha = ds := by
  cases ds with
  | nil => simp
  | cons d ds =>
    have hd : d.isDigit = true := by simp at h; exact h.1
    have : d.isAlpha = false := by
      simp only [Char.isDigit, Bool.and_eq_true, decide_eq_true_eq] at hd
      simp only [Char.isAlpha, Char.isUpper, Char.isLower, Bool.or_eq_false_iff,
        Bool.and_eq_false_iff, decide_eq_false_iff_not]
      have h1 := hd.1
      have h2 := hd.2
      constructor
      · left; intro h3; have := UInt32.le_trans h3 h2; revert this; decide
      · left; intro h3; have := UInt32.le_trans h3 h2; revert this; decide
    simp [List.takeWhile, List.dropWhile, this]

theorem letter_isAlpha (k : Nat) (h1 : 1 ≤ k) (h26 : k ≤ 26) :
    (Char.ofNat (64 + k)).isAlpha = true := by
  interval_cases k <;> rfl

theorem cellName_data (c : Nat) (r : Int) :
    (cellName c r).data = Char.ofNat (64 + c) :: (toString r).data := rfl

theorem GetColumnName_eq (c r : Int) (h1 : 1 ≤ c) (h26 : c ≤ 26) :
    GetColumnName c r = some (cellName c.toNat r) := by
  rw [GetColumnName, ConvertNumToChar_one_letter c h1 h26]
  rfl

theorem ColumnNameToNumber_letter (c : Nat) (h1 : 1 ≤ c) (h26 : c ≤ 26) :
    ColumnNameToNumber [Char.ofNat (64 + c)] = c := by
  simp only [ColumnNameToNumber, List.foldl_cons, List.foldl_nil, letter_toUpper c h1 h26]
  omega

theorem CellNameToCoordinates_cellName (c : Nat) (r : Int) (h1 : 1 ≤ c) (h26 : c ≤ 26)
    (hr : 1 ≤ r) (hmax : r ≤ 1048576) :
    CellNameToCoordinates (cellName c r) = some (c, r.toNat) := by
  obtain ⟨hv, hall, hne⟩ := toDigitsCore_spec (r.toNat + 1) r.toNat (by omega)
  have hdata := toString_data r (by omega)
  obtain ⟨ht, hd⟩ := takeWhile_isAlpha_digits _ hall
  have hA := letter_isAlpha c h1 h26
  simp only [CellNameToCoordinates, cellName_data, hdata, List.takeWhile_cons, hA, if_true,
    List.dropWhile_cons, ht, hd, ColumnNameToNumber_letter c h1 h26, hv]
  rw [if_pos ⟨by simp, hne, by simpa using hall, by omega, by
    simp only [excelize.TotalRows]; omega, by simp only [excelize.MaxColumns]; omega⟩]

theorem CellNameToCoordinates_cellName_none (c : Nat) (r : Int) (h1 : 1 ≤ c) (h26 : c ≤ 26)
    (hr : r ≤ 0 ∨ 1048576 < r) : CellNameToCoordinates (cellName c r) = none := by
  have hA := letter_isAlpha c h1 h26
  rcases hr with hr | hbig
  · rcases lt_or_eq_of_le hr with hneg | h0
    · obtain ⟨m, rfl⟩ := Int.eq_negSucc_of_lt_zero hneg
      have hd : (toString (Int.negSucc m)).data = '-' :: (toString (m + 1)).data := rfl
      have hm : Char.isAlpha '-' = false := by decide
      have hg : Char.isDigit '-' = false := by decide
      simp [CellNameToCoordinates, cellName_data, hd, List.takeWhile_cons, List.dropWhile_cons,
        hA, hm, hg]
    · subst h0
      have hd : (toString (0 : Int)).data = ['0'] := rfl
      have hm : Char.isAlpha '0' = false := by decide
      have hv : digitsValue ['0'] = 0 := by decide
      simp [CellNameToCoordinates, cellName_data, hd, List.takeWhile_cons, List.dropWhile_cons,
        hA, hm, hv]
  · obtain ⟨hv, hall, _⟩ := toDigitsCore_spec (r.toNat + 1) r.toNat (by omega)
    have hdata := toString_data r (by omega)
    obtain ⟨ht, hd⟩ := takeWhile_isAlpha_digits _ hall
    simp only [CellNameToCoordinates, cellName_data, hdata, List.takeWhile_cons, hA, if_true,
      List.dropWhile_cons, ht, hd, hv]
    rw [if_neg]
    rintro ⟨_, _, _, _, hle, _⟩
    simp only [excelize.TotalRows] at hle
    omega

theorem SetCellValue_eq (f : File) (c r : Int) (v : CellValue) (h1 : 1 ≤ c) (h26 : c ≤ 26) :
    SetCellValue (some f) (GetColumnName c r) v =
      some (f ++ [Call.SetCellValue (cellName c.toNat r) v]) := by
  simp [SetCellValue, GetColumnName_eq c r h1 h26]

theorem SetCellStyle_eq (f : File) (c r : Int) (s : Style) (h1 : 1 ≤ c) (h26 : c ≤ 26) :
    SetCellStyle (some f) (GetColumnName c r) (GetColumnName c r) s =
      some (f ++ [Call.SetCellStyle (cellName c.toNat r) (cellName c.toNat r) s]) := by
  simp [SetCellStyle, GetColumnName_eq c r h1 h26]

theorem toExcel_row_eq (f : File) (i : Int) (row : Row) :
    toExcel_row (some f, i) row = (some (f ++ rowCalls row (i + 1)), i + 1) := by
  have e2 : ((1 : Int) + 1).toNat = 2 := rfl
  have e3 : ((1 : Int) + 1 + 1).toNat = 3 := rfl
  have e4 : ((1 : Int) + 1 + 1 + 1).toNat = 4 := rfl
  have e5 : ((1 : Int) + 1 + 1 + 1 + 1).toNat = 5 := rfl
  have e6 : ((1 : Int) + 1 + 1 + 1 + 1 + 1).toNat = 6 := rfl
  have e7 : ((1 : Int) + 1 + 1 + 1 + 1 + 1 + 1).toNat = 7 := rfl
  have e8 : ((1 : Int) + 1 + 1 + 1 + 1 + 1 + 1 + 1).toNat = 8 := rfl
  have e9 : ((1 : Int) + 1 + 1 + 1 + 1 + 1 + 1 + 1 + 1).toNat = 9 := rfl
  have e10 : ((1 : Int) + 1 + 1 + 1 + 1 + 1 + 1 + 1 + 1 + 1).toNat = 10 := rfl
  have e11 : ((1 : Int) + 1 + 1 + 1 + 1 + 1 + 1 + 1 + 1 + 1 + 1).toNat = 11 := rfl
  have e1 : (1 : Int).toNat = 1 := rfl
  have e2b : (2 : Int).toNat = 2 := rfl
  by_cases h1 : row.BuyFee > 30 <;> by_cases h2 : row.SellTodayFee > 30 <;>
    by_cases h3 : row.SellYesterdayFee > 30 <;> by_cases h4 : row.BuySellFee > 20 <;>
    by_cases h5 : row.OneDotNetProfile < 0 <;>
    simp only [toExcel_row, h1, h2, h3, h4, h5, if_true, if_false] <;>
    simp (disch := norm_num) only [SetCellValue_eq, SetCellStyle_eq] <;>
    simp [e1, e2, e3, e4, e5, e6, e7, e8, e9, e10, e11, e2b, rowCalls, h1, h2, h3, h4, h5]

theorem toExcel_rows_eq (rows : List Row) : ∀ (f : File) (i : Int),
    toExcel_rows (some f, i) rows = (some (f ++ rowsCalls i rows), i + rows.length) := by
  induction rows with
  | nil => intro f i; simp [toExcel_rows, rowsCalls]
  | cons row rows ih =>
    intro f i
    have ih2 := ih (f ++ rowCalls row (i + 1)) (i + 1)
    simp only [toExcel_rows] at ih2 ⊢
    rw [List.foldl_cons, toExcel_row_eq, ih2]
    simp only [rowsCalls, List.append_assoc, List.length_cons, Prod.mk.injEq, true_and]
    push_cast
    ring

theorem rowsCalls_append (xs : List Row) : ∀ (i : Int) (ys : List Row),
    rowsCalls i (xs ++ ys) = rowsCalls i xs ++ rowsCalls (i + xs.length) ys := by
  induction xs with
  | nil => intro i ys; simp [rowsCalls]
  | cons x xs ih =>
    intro i ys
    have hi : i + ((x :: xs).length : Int) = i + 1 + (xs.length : Int) := by
      simp only [List.length_cons]; push_cast; ring
    rw [hi]
    show rowsCalls i (x :: (xs ++ ys)) = _
    rw [rowsCalls, ih, rowsCalls, List.append_assoc]

theorem toExcel_groups_eq (visit : List (Int × List Row)) : ∀ (f : File) (i : Int),
    toExcel_groups (some f, i) visit =
      (some (f ++ rowsCalls i (recordsIn visit)), i + (recordsIn visit).length) := by
  induction visit with
  | nil => intro f i; simp [toExcel_groups, recordsIn, rowsCalls]
  | cons e es ih =>
    intro f i
    have ih2 := ih (f ++ rowsCalls i e.2) (i + e.2.length)
    simp only [toExcel_groups] at ih2 ⊢
    rw [List.foldl_cons, toExcel_rows_eq, ih2]
    have : recordsIn (e :: es) = e.2 ++ recordsIn es := by simp [recordsIn]
    rw [this, rowsCalls_append, List.length_append]
    simp only [List.append_assoc, Prod.mk.injEq, true_and]
    push_cast
    ring

theorem index_column_titles (c : Nat) (h : c < 11) :
    index column_titles (Int.ofNat c) = some (column_titles.getD c "") := by
  interval_cases c <;> rfl

theorem toExcel_titles_map (r : Int) (ks : List Nat) : ∀ (f : File), (∀ c ∈ ks, c < 11) →
    (ks.map Int.ofNat).foldl (toExcel_title r) (some f) =
      some (f ++ ks.map
        (fun c => Call.SetCellValue (cellName (c + 1) r) (.str (column_titles.getD c "")))) := by
  induction ks with
  | nil => intro f _; simp
  | cons k ks ih =>
    intro f hk
    have hk11 : k < 11 := hk k (List.mem_cons_self k ks)
    have hi : Int.ofNat k = (k : Int) := rfl
    have hn : (Int.ofNat k + 1).toNat = k + 1 := by omega
    have hs := SetCellValue_eq f (Int.ofNat k + 1) r (.str (column_titles.getD k ""))
      (by omega) (by omega)
    rw [hn] at hs
    simp only [List.map_cons, List.foldl_cons, toExcel_title, index_column_titles k hk11, hs]
    rw [ih _ (fun c hc => hk c (List.mem_cons_of_mem k hc))]
    simp

theorem toExcel_titles_eq (f : File) :
    ((List.range 11).map Int.ofNat).foldl (toExcel_title 2) (some f) =
      some (f ++ (List.range 11).map
        (fun c => Call.SetCellValue (cellName (c + 1) 2) (.str (column_titles.getD c "")))) :=
  toExcel_titles_map 2 (List.range 11) f (fun _ hc => List.mem_range.mp hc)

theorem K_cellName (r : Int) : "K" ++ toString r = cellName 11 r := rfl

theorem coords_B2 : CellNameToCoordinates "B2" = some (2, 2) := by decide

theorem coords_K2 : CellNameToCoordinates "K2" = some (11, 2) := by decide

theorem toExcelIn_eq (visit : List (Int × List Row)) (header : String) (data_size : Int)
    (SaveAs : String → Option error) (h : -1 ≤ data_size) (hmax : data_size ≤ 1048574)
    (hs : SaveAs (strings.ReplaceAll header ':' ++ ".xlsx") = none) :
    toExcelIn visit header data_size SaveAs =
      some (.ok (headCalls data_size ++ rowsCalls 2 (recordsIn visit) ++
        [Call.SetActiveSheet, Call.SaveAs (strings.ReplaceAll header ':' ++ ".xlsx")])) := by
  have hK := CellNameToCoordinates_cellName 11 (data_size + 2) (by decide) (by decide) (by omega)
    (by omega)
  simp only [toExcelIn, excelize.SetCellStyle, K_cellName, hK, coords_B2, coords_K2,
    Option.isSome_some, and_self, if_true, toExcel_titles_eq, toExcel_groups_eq, hs, headCalls]
  simp

theorem toExcelIn_SaveAs_error (visit : List (Int × List Row)) (header : String)
    (data_size : Int) (SaveAs : String → Option error) (h : -1 ≤ data_size)
    (hmax : data_size ≤ 1048574) (err : error)
    (hs : SaveAs (strings.ReplaceAll header ':' ++ ".xlsx") = some err) :
    toExcelIn visit header data_size SaveAs = some (.error err) := by
  have hK := CellNameToCoordinates_cellName 11 (data_size + 2) (by decide) (by decide) (by omega)
    (by omega)
  simp only [toExcelIn, excelize.SetCellStyle, K_cellName, hK, coords_B2, coords_K2,
    Option.isSome_some, and_self, if_true, toExcel_titles_eq, toExcel_groups_eq, hs]

theorem toExcelIn_error (visit : List (Int × List Row)) (header : String) (data_size : Int)
    (SaveAs : String → Option error) (h : data_size < -1 ∨ 1048574 < data_size) :
    toExcelIn visit header data_size SaveAs = some (.error "invalid cell name") := by
  have hK := CellNameToCoordinates_cellName_none 11 (data_size + 2) (by decide) (by decide)
    (by omega)
  simp [toExcelIn, excelize.SetCellStyle, K_cellName, hK]

/-! ## Reading styles back from the calls -/

theorem styleAt_append (f g : File) (cell : String) :
    (f ++ g).styleAt cell = g.foldl (fun cur call => (call.styleOn cell).or cur) (f.styleAt cell) := by
  simp [File.styleAt, List.foldl_append]

theorem foldl_style_none (g : File) (cell : String) (cur : Option Style)
    (h : ∀ call ∈ g, call.styleOn cell = none) :
    g.foldl (fun cur call => (call.styleOn cell).or cur) cur = cur := by
  induction g generalizing cur with
  | nil => rfl
  | cons a g ih =>
    simp only [List.foldl_cons]
    rw [h a (List.mem_cons_self a g)]
    exact ih _ (fun call hc => h call (List.mem_cons_of_mem a hc))

theorem foldl_style_not (g : File) (cell : String) (s : Style) (cur : Option Style)
    (hcur : cur ≠ some s) (h : ∀ call ∈ g, call.styleOn cell ≠ some s) :
    g.foldl (fun cur call => (call.styleOn cell).or cur) cur ≠ some s := by
  induction g generalizing cur with
  | nil => exact hcur
  | cons a g ih =>
    simp only [List.foldl_cons]
    apply ih
    · have ha := h a (List.mem_cons_self a g)
      cases hs : a.styleOn cell with
      | none => simpa using hcur
      | some t => rw [hs] at ha; simpa using ha
    · exact fun call hc => h call (List.mem_cons_of_mem a hc)

theorem foldl_style_only (g : File) (cell : String) (s : Style) (cur : Option Style)
    (h : ∀ call ∈ g, ∀ t, call.styleOn cell = some t → t = s) :
    g.foldl (fun cur call => (call.styleOn cell).or cur) cur = some s ↔
      cur = some s ∨ ∃ call ∈ g, call.styleOn cell = some s := by
  induction g generalizing cur with
  | nil => simp
  | cons a g ih =>
    simp only [List.foldl_cons]
    rw [ih _ (fun call hc => h call (List.mem_cons_of_mem a hc))]
    have ha := h a (List.mem_cons_self a g)
    cases hs : a.styleOn cell with
    | none =>
      simp only [Option.or, List.mem_cons, exists_eq_or_imp, hs]
      simp
    | some t =>
      have := ha t hs
      subst this
      simp [hs]

theorem styleAt_sandwich (pre body post : File) (cell : String) (s : Style)
    (hpre : ∀ call ∈ pre, call.styleOn cell ≠ some s)
    (hbody : ∀ call ∈ body, ∀ t, call.styleOn cell = some t → t = s)
    (hpost : ∀ call ∈ post, call.styleOn cell = none) :
    (pre ++ body ++ post).styleAt cell = some s ↔ ∃ call ∈ body, call.styleOn cell = some s := by
  rw [styleAt_append, foldl_style_none _ _ _ hpost, styleAt_append, foldl_style_only _ _ _ _ hbody]
  have : pre.styleAt cell ≠ some s := foldl_style_not pre cell s none (by simp) hpre
  simp [this]

theorem styleOn_cellName (c1 c : Nat) (r1 r : Int) (s : Style) (h1 : 1 ≤ c1) (h2 : c1 ≤ 26)
    (h3 : 1 ≤ c) (h4 : c ≤ 26) (hr1 : 1 ≤ r1) (hr : 1 ≤ r) (hmax : r ≤ 1048576) :
    (Call.SetCellStyle (cellName c1 r1) (cellName c1 r1) s).styleOn (cellName c r) =
      if c = c1 ∧ r = r1 then some s else none := by
  by_cases hbig : r1 ≤ 1048576
  · simp only [Call.styleOn, inRange, CellNameToCoordinates_cellName c1 r1 h1 h2 hr1 hbig,
      CellNameToCoordinates_cellName c r h3 h4 hr hmax, min_self, max_self]
    by_cases h : c = c1 ∧ r = r1
    · obtain ⟨rfl, rfl⟩ := h
      simp
    · rw [if_neg h, if_neg]
      simp only [decide_eq_true_eq]
      intro hh
      apply h
      constructor
      · omega
      · omega
  · have hnone := CellNameToCoordinates_cellName_none c1 r1 h1 h2 (Or.inr (by omega))
    have hne : ¬ (c = c1 ∧ r = r1) := fun hh => hbig (by omega)
    simp [Call.styleOn, inRange, hnone, hne]

/-- A cell whose name has no coordinates has no style and no value. -/
theorem no_coordinates (f : File) (cell : String) (h : CellNameToCoordinates cell = none) :
    f.styleAt cell = none ∧ f.valueAt cell = none := by
  have hs : ∀ call : Call, call.styleOn cell = none := by
    intro call
    cases call <;> simp only [Call.styleOn]
    rename_i hCell vCell styleID
    have : inRange hCell vCell cell = false := by
      simp only [inRange, h]
      split <;> simp_all
    simp [this]
  have hv : ∀ call : Call, call.valueOn cell = none := by
    intro call
    cases call <;> simp [Call.valueOn, h]
  constructor
  · simp only [File.styleAt, hs, Option.or]
    induction f with
    | nil => rfl
    | cons a f ih => simpa using ih
  · simp only [File.valueAt, hv, Option.or]
    induction f with
    | nil => rfl
    | cons a f ih => simpa using ih

theorem mem_rowsCalls (rows : List Row) : ∀ (i : Int) (call : Call),
    call ∈ rowsCalls i rows ↔
      ∃ (k : Nat) (row : Row), rows[k]? = some row ∧ call ∈ rowCalls row (i + 1 + k) := by
  induction rows with
  | nil => intro i call; simp [rowsCalls]
  | cons x xs ih =>
    intro i call
    simp only [rowsCalls, List.mem_append, ih]
    constructor
    · rintro (h | ⟨k, row, hk, hc⟩)
      · exact ⟨0, x, by simp, by simpa using h⟩
      · refine ⟨k + 1, row, by simpa using hk, ?_⟩
        have : i + 1 + ((k + 1 : Nat) : Int) = i + 1 + 1 + (k : Int) := by push_cast; ring
        rw [this]; exact hc
    · rintro ⟨k, row, hk, hc⟩
      cases k with
      | zero =>
        left
        simp at hk
        subst hk
        simpa using hc
      | succ k =>
        right
        refine ⟨k, row, by simpa using hk, ?_⟩
        have : i + 1 + ((k + 1 : Nat) : Int) = i + 1 + 1 + (k : Int) := by push_cast; ring
        rw [this] at hc; exact hc

theorem exists_and_eq_and {α : Type} (p : Prop) (a : α) (P : α → Prop) :
    (∃ x, p ∧ x = a ∧ P x) ↔ p ∧ P a := by
  constructor
  · rintro ⟨x, hp, rfl, hx⟩; exact ⟨hp, hx⟩
  · rintro ⟨hp, ha⟩; exact ⟨a, hp, rfl, ha⟩

theorem ite_some_eq (p : Prop) [Decidable p] (s : Style) :
    ((if p then some s else none) = some s) ↔ p := by
  by_cases h : p <;> simp [h]

theorem rowCalls_style (row : Row) (r1 r : Int) (c : Nat) (h3 : 1 ≤ c) (h4 : c ≤ 26)
    (hr1 : 1 ≤ r1) (hr : 1 ≤ r) (hmax : r ≤ 1048576) :
    (∀ call ∈ rowCalls row r1, ∀ t, call.styleOn (cellName c r) = some t → t = .red_font) ∧
    ((∃ call ∈ rowCalls row r1, call.styleOn (cellName c r) = some .red_font) ↔
      r = r1 ∧ alertColumn row c) := by
  have S : ∀ c1 : Nat, 1 ≤ c1 → c1 ≤ 26 →
      (Call.SetCellStyle (cellName c1 r1) (cellName c1 r1) .red_font).styleOn (cellName c r) =
        if c = c1 ∧ r = r1 then some .red_font else none :=
    fun c1 h1 h2 => styleOn_cellName c1 c r1 r .red_font h1 h2 h3 h4 hr1 hr hmax
  have S2 := S 2 (by norm_num) (by norm_num)
  have S6 := S 6 (by norm_num) (by norm_num)
  have S7 := S 7 (by norm_num) (by norm_num)
  have S8 := S 8 (by norm_num) (by norm_num)
  have S10 := S 10 (by norm_num) (by norm_num)
  have S11 := S 11 (by norm_num) (by norm_num)
  have V : ∀ (n : String) (v : CellValue), (Call.SetCellValue n v).styleOn (cellName c r) = none :=
    fun _ _ => rfl
  constructor
  · intro call hc t ht
    simp only [rowCalls, List.mem_append, List.mem_cons, List.mem_singleton, List.not_mem_nil,
      or_false, List.mem_ite_nil_right, or_assoc] at hc
    rcases hc with h | h | h | h | h | h | h | h | h | h | h | h | h | h | h | h | h
    all_goals first
      | (rw [h, V] at ht; exact absurd ht (by simp))
      | (rw [h.2] at ht
         first
          | rw [S2] at ht
          | rw [S6] at ht
          | rw [S7] at ht
          | rw [S8] at ht
          | rw [S10] at ht
          | rw [S11] at ht
         split at ht
         · exact (Option.some.inj ht).symm
         · exact absurd ht (by simp))
  · simp only [rowCalls, List.mem_append, List.mem_cons, List.mem_singleton, List.not_mem_nil,
      or_false, List.mem_ite_nil_right, or_assoc, or_and_right, exists_or, exists_eq_left, V,
      and_assoc, exists_and_eq_and, S2, S6, S7, S8, S10, S11, alertColumn, ite_some_eq,
      reduceCtorEq, false_or]
    constructor
    · rintro (⟨h, hc, hr⟩ | ⟨h, hc, hr⟩ | ⟨h, hc, hr⟩ | ⟨h, hc, hr⟩ | ⟨h, hc, hr⟩ | ⟨h, hc, hr⟩ |
        ⟨h, hc, hr⟩ | ⟨h, hc, hr⟩ | ⟨h, hc, hr⟩)
      · exact ⟨hr, Or.inl ⟨hc, h⟩⟩
      · exact ⟨hr, Or.inr (Or.inl ⟨hc, h⟩)⟩
      · exact ⟨hr, Or.inr (Or.inr (Or.inl ⟨hc, h⟩))⟩
      · exact ⟨hr, Or.inr (Or.inr (Or.inr (Or.inl ⟨hc, h⟩)))⟩
      · exact ⟨hr, Or.inr (Or.inr (Or.inr (Or.inr (Or.inl ⟨hc, h⟩))))⟩
      · exact ⟨hr, Or.inr (Or.inr (Or.inr (Or.inr (Or.inr ⟨hc, Or.inl h⟩))))⟩
      · exact ⟨hr, Or.inr (Or.inr (Or.inr (Or.inr (Or.inr ⟨hc, Or.inr (Or.inl h)⟩))))⟩
      · exact ⟨hr, Or.inr (Or.inr (Or.inr (Or.inr (Or.inr ⟨hc, Or.inr (Or.inr (Or.inl h))⟩))))⟩
      · exact ⟨hr, Or.inr (Or.inr (Or.inr (Or.inr (Or.inr ⟨hc, Or.inr (Or.inr (Or.inr h))⟩))))⟩
    · rintro ⟨hr, ⟨hc, h⟩ | ⟨hc, h⟩ | ⟨hc, h⟩ | ⟨hc, h⟩ | ⟨hc, h⟩ | ⟨hc, h | h | h | h⟩⟩
      · exact Or.inl ⟨h, hc, hr⟩
      · exact Or.inr (Or.inl ⟨h, hc, hr⟩)
      · exact Or.inr (Or.inr (Or.inl ⟨h, hc, hr⟩))
      · exact Or.inr (Or.inr (Or.inr (Or.inl ⟨h, hc, hr⟩)))
      · exact Or.inr (Or.inr (Or.inr (Or.inr (Or.inl ⟨h, hc, hr⟩))))
      · exact Or.inr (Or.inr (Or.inr (Or.inr (Or.inr (Or.inl ⟨h, hc, hr⟩)))))
      · exact Or.inr (Or.inr (Or.inr (Or.inr (Or.inr (Or.inr (Or.inl ⟨h, hc, hr⟩))))))
      · exact Or.inr (Or.inr (Or.inr (Or.inr (Or.inr (Or.inr (Or.inr (Or.inl ⟨h, hc, hr⟩)))))))
      · exact Or.inr (Or.inr (Or.inr (Or.inr (Or.inr (Or.inr (Or.inr (Or.inr ⟨h, hc, hr⟩)))))))

/-- In the file `toExcel` saves, the cell in column `c` of the row of the
`k`-th record, when that row is on the sheet, carries the alert style exactly
when `c` is an alert column of the record. -/
theorem styleAt_rendered (visit : List (Int × List Row)) (data_size : Int) (name : String)
    (k : Nat) (row : Row) (hk : (recordsIn visit)[k]? = some row) (hmax : 3 + (k : Int) ≤ 1048576)
    (c : Nat) (h1 : 1 ≤ c) (h26 : c ≤ 26) :
    (headCalls data_size ++ rowsCalls 2 (recordsIn visit) ++
        [Call.SetActiveSheet, Call.SaveAs name]).styleAt (cellName c (3 + k)) = some .red_font ↔
      alertColumn row c := by
  rw [styleAt_sandwich]
  · constructor
    · rintro ⟨call, hc, hs⟩
      obtain ⟨j, row2, hj, hc2⟩ := (mem_rowsCalls _ _ _).mp hc
      have := ((rowCalls_style row2 (2 + 1 + j) (3 + k) c h1 h26 (by omega) (by omega)
        hmax).2).mp ⟨call, hc2, hs⟩
      have hjk : j = k := by omega
      subst hjk
      rw [hk] at hj
      rw [Option.some.inj hj]
      exact this.2
    · intro ha
      obtain ⟨call, hc, hs⟩ := ((rowCalls_style row (2 + 1 + k) (3 + k) c h1 h26 (by omega)
        (by omega) hmax).2).mpr ⟨by ring, ha⟩
      exact ⟨call, (mem_rowsCalls _ _ _).mpr ⟨k, row, hk, hc⟩, hs⟩
  · intro call hc
    simp only [headCalls, List.mem_append, List.mem_cons, List.mem_singleton, List.mem_map,
      List.not_mem_nil, or_false] at hc
    rcases hc with ((h | ⟨i, _, h⟩) | h | h | h | h) | ⟨i, _, h⟩
    all_goals (subst h; simp only [Call.styleOn]; try split) <;> simp
  · intro call hc t ht
    obtain ⟨j, row2, _, hc2⟩ := (mem_rowsCalls _ _ _).mp hc
    exact (rowCalls_style row2 (2 + 1 + j) (3 + k) c h1 h26 (by omega) (by omega) hmax).1
      call hc2 t ht
  · intro call hc
    simp only [List.mem_cons, List.mem_singleton, List.not_mem_nil, or_false] at hc
    rcases hc with h | h <;> subst h <;> rfl

/-! ## Reading values back from the calls -/

theorem valueAt_append (f g : File) (cell : String) :
    (f ++ g).valueAt cell = g.foldl (fun cur call => (call.valueOn cell).or cur) (f.valueAt cell) := by
  simp [File.valueAt, List.foldl_append]

theorem foldl_value_none (g : File) (cell : String) (cur : Option CellValue)
    (h : ∀ call ∈ g, call.valueOn cell = none) :
    g.foldl (fun cur call => (call.valueOn cell).or cur) cur = cur := by
  induction g generalizing cur with
  | nil => rfl
  | cons a g ih =>
    simp only [List.foldl_cons]
    rw [h a (List.mem_cons_self a g)]
    exact ih _ (fun call hc => h call (List.mem_cons_of_mem a hc))

theorem foldl_value_only (g : File) (cell : String) (v : CellValue) (cur : Option CellValue)
    (h : ∀ call ∈ g, ∀ t, call.valueOn cell = some t → t = v) :
    g.foldl (fun cur call => (call.valueOn cell).or cur) cur = some v ↔
      cur = some v ∨ ∃ call ∈ g, call.valueOn cell = some v := by
  induction g generalizing cur with
  | nil => simp
  | cons a g ih =>
    simp only [List.foldl_cons]
    rw [ih _ (fun call hc => h call (List.mem_cons_of_mem a hc))]
    have ha := h a (List.mem_cons_self a g)
    cases hs : a.valueOn cell with
    | none =>
      simp only [Option.or, List.mem_cons, exists_eq_or_imp, hs]
      simp
    | some t =>
      have := ha t hs
      subst this
      simp [hs]

theorem valueOn_cellName (c1 c : Nat) (r1 r : Int) (v : CellValue) (h1 : 1 ≤ c1) (h2 : c1 ≤ 26)
    (h3 : 1 ≤ c) (h4 : c ≤ 26) (hr1 : 1 ≤ r1) (hr : 1 ≤ r) (hmax : r ≤ 1048576) :
    (Call.SetCellValue (cellName c1 r1) v).valueOn (cellName c r) =
      if c = c1 ∧ r = r1 then some v else none := by
  by_cases hbig : r1 ≤ 1048576
  · simp only [Call.valueOn, CellNameToCoordinates_cellName c1 r1 h1 h2 hr1 hbig,
      CellNameToCoordinates_cellName c r h3 h4 hr hmax, Option.isSome_some, and_true]
    by_cases h : c = c1 ∧ r = r1
    · obtain ⟨rfl, rfl⟩ := h
      simp
    · rw [if_neg h, if_neg]
      intro hh
      apply h
      have h5 := (Prod.mk.inj (Option.some.inj hh))
      constructor
      · omega
      · omega
  · have hnone := CellNameToCoordinates_cellName_none c1 r1 h1 h2 (Or.inr (by omega))
    have hne : ¬ (c = c1 ∧ r = r1) := fun hh => hbig (by omega)
    simp [Call.valueOn, hnone, hne, CellNameToCoordinates_cellName c r h3 h4 hr hmax]

theorem rowCalls_value (row : Row) (r1 r : Int) (c : Nat) (h3 : 1 ≤ c) (h4 : c ≤ 11)
    (hr1 : 1 ≤ r1) (hr : 1 ≤ r) (hmax : r ≤ 1048576) :
    (∀ call ∈ rowCalls row r1, ∀ t, call.valueOn (cellName c r) = some t →
      r = r1 ∧ (recordValues row)[c - 1]? = some t) ∧
    ∃ call ∈ rowCalls row r, ∃ t, call.valueOn (cellName c r) = some t := by
  have V : ∀ (c1 : Nat) (v : CellValue), 1 ≤ c1 → c1 ≤ 26 →
      (Call.SetCellValue (cellName c1 r1) v).valueOn (cellName c r) =
        if c = c1 ∧ r = r1 then some v else none :=
    fun c1 v h1 h2 => valueOn_cellName c1 c r1 r v h1 h2 h3 (by omega) hr1 hr hmax
  have S : ∀ (a b : String) (s : Style), (Call.SetCellStyle a b s).valueOn (cellName c r) = none :=
    fun _ _ _ => rfl
  constructor
  · intro call hc t ht
    simp only [rowCalls, List.mem_append, List.mem_cons, List.mem_singleton, List.not_mem_nil,
      or_false, List.mem_ite_nil_right, or_assoc] at hc
    rcases hc with h | h | h | h | h | h | h | h | h | h | h | h | h | h | h | h | h
    all_goals first
      | (rw [h.2, S] at ht; exact absurd ht (by simp))
      | (rw [h, V _ _ (by norm_num) (by norm_num)] at ht
         split at ht
         · rename_i hcr
           obtain ⟨hc1, hr2⟩ := hcr
           subst hc1
           exact ⟨hr2, by rw [← Option.some.inj ht]; rfl⟩
         · exact absurd ht (by simp))
  · have hv := fun (c1 : Nat) (v : CellValue) (h1 : 1 ≤ c1) (h2 : c1 ≤ 26) =>
      valueOn_cellName c1 c r r v h1 h2 h3 (by omega) hr hr hmax
    have hm : ∀ call, call ∈ [Call.SetCellValue (cellName 1 r) (.str ""),
        Call.SetCellValue (cellName 2 r) (.str row.NameCode),
        Call.SetCellValue (cellName 3 r) (.num row.Price),
        Call.SetCellValue (cellName 4 r) (.str row.OpenBuyMargin),
        Call.SetCellValue (cellName 5 r) (.str row.OpenSellMargin),
        Call.SetCellValue (cellName 6 r) (.num row.BuyFee),
        Call.SetCellValue (cellName 7 r) (.num row.SellTodayFee),
        Call.SetCellValue (cellName 8 r) (.num row.SellYesterdayFee),
        Call.SetCellValue (cellName 9 r) (.num row.OneDotProfile),
        Call.SetCellValue (cellName 10 r) (.num row.BuySellFee),
        Call.SetCellValue (cellName 11 r) (.num row.OneDotNetProfile)] →
        call ∈ rowCalls row r := by
      intro call hc
      simp only [rowCalls, List.mem_append, List.mem_cons, List.mem_singleton, List.not_mem_nil,
        or_false, List.mem_ite_nil_right, or_assoc] at hc ⊢
      tauto
    have key : ∀ v : CellValue, Call.SetCellValue (cellName c r) v ∈ rowCalls row r →
        ∃ call ∈ rowCalls row r, ∃ t, call.valueOn (cellName c r) = some t :=
      fun v hmem => ⟨_, hmem, v, by
        rw [valueOn_cellName c c r r v h3 (by omega) h3 (by omega) hr hr hmax]; simp⟩
    interval_cases c
    · exact key (.str "") (hm _ (by simp))
    · exact key (.str row.NameCode) (hm _ (by simp))
    · exact key (.num row.Price) (hm _ (by simp))
    · exact key (.str row.OpenBuyMargin) (hm _ (by simp))
    · exact key (.str row.OpenSellMargin) (hm _ (by simp))
    · exact key (.num row.BuyFee) (hm _ (by simp))
    · exact key (.num row.SellTodayFee) (hm _ (by simp))
    · exact key (.num row.SellYesterdayFee) (hm _ (by simp))
    · exact key (.num row.OneDotProfile) (hm _ (by simp))
    · exact key (.num row.BuySellFee) (hm _ (by simp))
    · exact key (.num row.OneDotNetProfile) (hm _ (by simp))

/-- In the file `toExcel` saves, the cell in column `c` of the row of the
`k`-th record, when that row is on the sheet, holds the value of that column
of the record. -/
theorem valueAt_rendered (visit : List (Int × List Row)) (data_size : Int) (name : String)
    (k : Nat) (row : Row) (hk : (recordsIn visit)[k]? = some row) (hmax : 3 + (k : Int) ≤ 1048576)
    (c : Nat) (h1 : 1 ≤ c) (h11 : c ≤ 11) :
    (headCalls data_size ++ rowsCalls 2 (recordsIn visit) ++
        [Call.SetActiveSheet, Call.SaveAs name]).valueAt (cellName c (3 + k)) =
      (recordValues row)[c - 1]? := by
  have e3 : (3 : Int) + k = 2 + 1 + k := by ring
  obtain ⟨call, hc, t, ht⟩ := (rowCalls_value row (2 + 1 + k) (2 + 1 + k) c h1 h11 (by omega)
    (by omega) (by omega)).2
  have hval := ((rowCalls_value row (2 + 1 + k) (2 + 1 + k) c h1 h11 (by omega)
    (by omega) (by omega)).1 call hc t ht).2
  rw [hval, valueAt_append, foldl_value_none, valueAt_append, foldl_value_only, e3]
  · right
    exact ⟨call, (mem_rowsCalls _ _ _).mpr ⟨k, row, hk, hc⟩, ht⟩
  · intro call2 hc2 t2 ht2
    obtain ⟨j, row2, hj, hc3⟩ := (mem_rowsCalls _ _ _).mp hc2
    rw [e3] at ht2
    have := (rowCalls_value row2 (2 + 1 + j) (2 + 1 + k) c h1 h11 (by omega) (by omega)
      (by omega)).1 call2 hc3 t2 ht2
    have hjk : j = k := by omega
    subst hjk
    rw [hk] at hj
    rw [← Option.some.inj hj, hval] at this
    exact (Option.some.inj this.2).symm
  · intro call2 hc2
    simp only [List.mem_cons, List.mem_singleton, List.not_mem_nil, or_false] at hc2
    rcases hc2 with h | h <;> subst h <;> rfl

/-! ## RecordParser: splitting on the marker -/

theorem splitChars_ne_nil (sep : Char) (cs : List Char) : strings.splitChars sep cs ≠ [] := by
  cases cs with
  | nil => simp [strings.splitChars]
  | cons c cs =>
    simp only [strings.splitChars]
    split
    · simp
    · split <;> simp

theorem splitChars_head (sep : Char) (cs : List Char) :
    (strings.splitChars sep cs).head? = some (cs.takeWhile (fun c => c ≠ sep)) := by
  induction cs with
  | nil => simp [strings.splitChars]
  | cons c cs ih =>
    simp only [strings.splitChars]
    by_cases h : c = sep
    · simp [h]
    · rw [if_neg h]
      cases hs : strings.splitChars sep cs with
      | nil => exact absurd hs (splitChars_ne_nil sep cs)
      | cons p ps =>
        rw [hs] at ih
        simp only [List.head?_cons, Option.some.injEq] at ih
        simp [h, ih]

theorem splitChars_tail (sep : Char) (cs : List Char) :
    (strings.splitChars sep cs).tail =
      if sep ∈ cs then strings.splitChars sep ((cs.dropWhile (fun c => c ≠ sep)).drop 1)
      else [] := by
  induction cs with
  | nil => simp [strings.splitChars]
  | cons c cs ih =>
    simp only [strings.splitChars]
    by_cases h : c = sep
    · simp [h]
    · rw [if_neg h]
      have hne : sep ≠ c := fun e => h e.symm
      cases hs : strings.splitChars sep cs with
      | nil => exact absurd hs (splitChars_ne_nil sep cs)
      | cons p ps =>
        rw [hs] at ih
        simp only [List.tail_cons] at ih
        simp [h, hne, ih]

theorem splitChars_length_le_one (sep : Char) (cs : List Char) :
    (strings.splitChars sep cs).length ≤ 1 ↔ sep ∉ cs := by
  have ht := splitChars_tail sep cs
  have hne := splitChars_ne_nil sep cs
  cases hs : strings.splitChars sep cs with
  | nil => exact absurd hs hne
  | cons p ps =>
    rw [hs] at ht
    simp only [List.tail_cons] at ht
    by_cases hm : sep ∈ cs
    · rw [if_pos hm] at ht
      have : ps ≠ [] := by rw [ht]; exact splitChars_ne_nil _ _
      have : 0 < ps.length := List.length_pos.mpr this
      simp only [List.length_cons, hm, not_true_eq_false, iff_false]
      omega
    · rw [if_neg hm] at ht
      simp [ht, hm]

theorem splitChars_second (sep : Char) (cs : List Char) (hm : sep ∈ cs) :
    (strings.splitChars sep cs).getD 1 [] =
      ((cs.dropWhile (fun c => c ≠ sep)).drop 1).takeWhile (fun c => c ≠ sep) := by
  have ht := splitChars_tail sep cs
  rw [if_pos hm] at ht
  have hh := splitChars_head sep ((cs.dropWhile (fun c => c ≠ sep)).drop 1)
  cases hs : strings.splitChars sep cs with
  | nil => exact absurd hs (splitChars_ne_nil sep cs)
  | cons p ps =>
    rw [hs] at ht
    simp only [List.tail_cons] at ht
    rw [← ht] at hh
    cases ps with
    | nil => simp at hh
    | cons q qs =>
      simp only [List.head?_cons, Option.some.injEq] at hh
      simp [hh]

theorem Split_length_le_one (s : String) :
    (strings.Split s '≈').length ≤ 1 ↔ '≈' ∉ s.data := by
  simp only [strings.Split, List.length_map]
  exact splitChars_length_le_one '≈' s.data

theorem Split_second (s : String) (hm : '≈' ∈ s.data) :
    (strings.Split s '≈').getD 1 "" = betweenMarkers s := by
  have h2 := splitChars_second '≈' s.data hm
  have hlen : ¬ (strings.splitChars '≈' s.data).length ≤ 1 := by
    rw [splitChars_length_le_one]; simpa using hm
  simp only [strings.Split, betweenMarkers, beforeMarker, afterMarker]
  rw [List.getD_eq_getElem?_getD, List.getElem?_map]
  rw [List.getD_eq_getElem?_getD] at h2
  cases hg : (strings.splitChars '≈' s.data)[1]? with
  | none =>
    rw [List.getElem?_eq_none_iff] at hg
    omega
  | some x =>
    rw [hg] at h2
    simp only [Option.getD_some] at h2
    simp [h2]

/-- The numeric fee of a cell: the whole text without a marker, and with one
the text between the first marker and the next. -/
theorem feeValue_eq (s : String) :
    feeValue s =
      if '≈' ∈ s.data then cast.ToFloat64 (strings.Trim (betweenMarkers s) " ")
      else cast.ToFloat64 s := by
  simp only [feeValue]
  by_cases hm : '≈' ∈ s.data
  · rw [if_pos hm, if_neg (by rw [Split_length_le_one]; simpa using hm), Split_second s hm]
  · rw [if_neg hm, if_pos (by rw [Split_length_le_one]; exact hm)]

/-! ## DocumentExtractor: the loops of `getContent` -/

theorem getContent_tr_kept (rows : List Row) (n : Int) (tr : Tr) (h : nameKept tr.Name = true) :
    getContent_tr (rows, n) tr = (rows ++ [getContent_row tr], n + 1) := by
  simp [getContent_tr, h]

theorem getContent_tr_skipped (st : List Row × Int) (tr : Tr) (h : nameKept tr.Name = false) :
    getContent_tr st tr = st := by
  simp [getContent_tr, h]

theorem foldl_getContent_tr (trs : List Tr) : ∀ (rows : List Row) (n : Int),
    trs.foldl getContent_tr (rows, n) =
      (rows ++ (trs.filter (fun tr => nameKept tr.Name)).map getContent_row,
        n + ((trs.filter (fun tr => nameKept tr.Name)).length : Nat)) := by
  induction trs with
  | nil => intro rows n; simp
  | cons tr trs ih =>
    intro rows n
    simp only [List.foldl_cons]
    by_cases h : nameKept tr.Name = true
    · have hf : (tr :: trs).filter (fun tr => nameKept tr.Name) =
          tr :: trs.filter (fun tr => nameKept tr.Name) := by simp [List.filter_cons, h]
      rw [getContent_tr_kept rows n tr h, ih, hf]
      simp only [List.map_cons, List.length_cons, List.append_assoc, List.singleton_append]
      congr 1
      push_cast
      ring
    · have h2 : nameKept tr.Name = false := by simpa using h
      have hf : (tr :: trs).filter (fun tr => nameKept tr.Name) =
          trs.filter (fun tr => nameKept tr.Name) := by simp [List.filter_cons, h2]
      rw [getContent_tr_skipped _ tr h2, ih, hf]

theorem set_fresh (m : RowMap) (k : Int) (v : List Row) (h : ∀ e ∈ m, e.1 < k) :
    m.assign k v = m ++ [(k, v)] := by
  simp only [RowMap.assign]
  congr 1
  apply List.filter_eq_self.mpr
  intro e he
  have := h e he
  simp only [ne_eq, decide_not, Bool.not_eq_eq_eq_not, Bool.not_true, decide_eq_false_iff_not]
  omega

theorem getContent_panels_eq (panels : List Panel) : ∀ (i : Int) (st : Extracted),
    (∀ e ∈ st.dataes, e.1 < i) →
    getContent_panels i panels st =
      ⟨st.exchange_names ++ panels.map (fun s => strings.Trim s.heading " "),
        st.dataes ++ groupsFrom i panels,
        st.data_size + ((panels.map (fun s => s.records.length)).sum : Nat)⟩ := by
  induction panels with
  | nil => intro i st _; simp [getContent_panels, groupsFrom]
  | cons s ss ih =>
    intro i st hst
    have hfresh : ∀ e ∈ (getContent_panel st i s).dataes, e.1 < i + 1 := by
      intro e he
      simp only [getContent_panel, foldl_getContent_tr, set_fresh _ _ _ hst, List.mem_append,
        List.mem_singleton] at he
      rcases he with he | he
      · have := hst e he; omega
      · rw [he]; simp
    rw [getContent_panels, ih (i + 1) _ hfresh]
    simp only [getContent_panel, foldl_getContent_tr, set_fresh _ _ _ hst, List.nil_append,
      List.map_cons, List.sum_cons, groupsFrom, Panel.records, List.length_map,
      List.append_assoc, List.singleton_append, Extracted.mk.injEq, true_and]
    push_cast
    ring

theorem groupsFrom_sizes (panels : List Panel) : ∀ i : Int,
    ((groupsFrom i panels).map (fun e => e.2.length)).sum =
      (panels.map (fun s => s.records.length)).sum := by
  induction panels with
  | nil => intro i; simp [groupsFrom]
  | cons s ss ih => intro i; simp [groupsFrom, ih]

theorem getContent_eq (doc : Doc) (h : 1 < (strings.Split doc.h1_small '：').length) :
    getContent doc =
      .ok ("期货手续费和保证金" ++ (strings.Split doc.h1_small '：').getD 1 "",
        ⟨doc.panels.map (fun s => strings.Trim s.heading " "), groupsFrom 0 doc.panels,
          ((doc.panels.map (fun s => s.records.length)).sum : Nat)⟩) := by
  simp only [getContent]
  rw [if_neg (by omega), getContent_panels_eq doc.panels 0 ⟨[], [], 0⟩ (by simp)]
  simp

/-! ## Numbers read by `cast.ToFloat64` -/

theorem ToFloat64_of_readFloat (s : String) (d : Decimal) (h : strconv.readFloat s = some d) :
    cast.ToFloat64 s = d.value := by
  simp [cast.ToFloat64, strconv.ParseFloat, h]

theorem ToFloat64_of_syntax_error (s : String) (h : strconv.ParseFloat s = none) :
    cast.ToFloat64 s = 0 := by
  simp [cast.ToFloat64, h]

theorem ToFloat64_empty : cast.ToFloat64 "" = 0 :=
  ToFloat64_of_syntax_error "" (by
    have : strconv.readFloat "" = none := by decide
    simp [strconv.ParseFloat, this])

theorem ToFloat64_35 : cast.ToFloat64 "35" = 35 := by
  rw [ToFloat64_of_readFloat "35" ⟨false, 35, 0⟩ (by decide)]
  norm_num [Decimal.value]

theorem ToFloat64_20 : cast.ToFloat64 "20" = 20 := by
  rw [ToFloat64_of_readFloat "20" ⟨false, 20, 0⟩ (by decide)]
  norm_num [Decimal.value]

theorem ToFloat64_10 : cast.ToFloat64 "10" = 10 := by
  rw [ToFloat64_of_readFloat "10" ⟨false, 10, 0⟩ (by decide)]
  norm_num [Decimal.value]

theorem ToFloat64_30 : cast.ToFloat64 "30" = 30 := by
  rw [ToFloat64_of_readFloat "30" ⟨false, 30, 0⟩ (by decide)]
  norm_num [Decimal.value]

theorem ToFloat64_15 : cast.ToFloat64 "15" = 15 := by
  rw [ToFloat64_of_readFloat "15" ⟨false, 15, 0⟩ (by decide)]
  norm_num [Decimal.value]

theorem ToFloat64_1 : cast.ToFloat64 "1" = 1 := by
  rw [ToFloat64_of_readFloat "1" ⟨false, 1, 0⟩ (by decide)]
  norm_num [Decimal.value]

theorem ToFloat64_2 : cast.ToFloat64 "2" = 2 := by
  rw [ToFloat64_of_readFloat "2" ⟨false, 2, 0⟩ (by decide)]
  norm_num [Decimal.value]

theorem ToFloat64_12_3 : cast.ToFloat64 "12.3" = 12.3 := by
  rw [ToFloat64_of_readFloat "12.3" ⟨false, 123, -1⟩ (by decide)]
  norm_num [Decimal.value]

theorem ToFloat64_abc : cast.ToFloat64 "abc" = 0 :=
  ToFloat64_of_syntax_error "abc" (by
    have : strconv.readFloat "abc" = none := by decide
    simp [strconv.ParseFloat, this])

theorem ToFloat64_1_marker_2 : cast.ToFloat64 "1≈2" = 0 :=
  ToFloat64_of_syntax_error "1≈2" (by
    have : strconv.readFloat "1≈2" = none := by decide
    simp [strconv.ParseFloat, this])

/-! ## Texts around the marker -/

theorem mem_dropWhile_of_not (p : Char → Bool) (x : Char) (hx : p x = false) :
    ∀ l : List Char, x ∈ l → x ∈ l.dropWhile p := by
  intro l
  induction l with
  | nil => intro h; exact h
  | cons a l ih =>
    intro h
    simp only [List.dropWhile_cons]
    by_cases ha : p a = true
    · rw [if_pos ha]
      rcases List.mem_cons.mp h with rfl | h2
      · rw [hx] at ha; exact absurd ha (by simp)
      · exact ih h2
    · rw [if_neg ha]; exact h

theorem marker_mem_Trim (s : String) (h : '≈' ∈ s.data) : '≈' ∈ (strings.Trim s " ").data := by
  have hp : (fun c => " ".data.contains c) '≈' = false := by decide
  simp only [strings.Trim, List.mem_reverse]
  apply mem_dropWhile_of_not _ _ hp
  rw [List.mem_reverse]
  exact mem_dropWhile_of_not _ _ hp _ h

theorem not_mem_after_of_count_one (sep : Char) : ∀ cs : List Char, cs.count sep = 1 →
    sep ∉ (cs.dropWhile (fun c => c ≠ sep)).drop 1 := by
  intro cs
  induction cs with
  | nil => intro h; simp at h
  | cons a cs ih =>
    intro h
    by_cases ha : a = sep
    · subst ha
      simp only [List.count_cons_self, Nat.add_eq_right] at h
      have : a ∉ cs := List.count_eq_zero.mp h
      simpa [List.dropWhile_cons] using this
    · have hne : (a == sep) = false := by simpa using ha
      rw [List.count_cons, hne] at h
      simp only [Bool.false_eq_true, if_false, Nat.add_zero] at h
      have := ih h
      simpa [List.dropWhile_cons, ha] using this

theorem betweenMarkers_of_count_one (s : String) (h : s.data.count '≈' = 1) :
    betweenMarkers s = afterMarker s := by
  have hn := not_mem_after_of_count_one '≈' s.data h
  simp only [betweenMarkers, beforeMarker, afterMarker]
  congr 1
  apply List.takeWhile_eq_self_iff.mpr
  intro c hc
  simp only [ne_eq, decide_not, Bool.not_eq_eq_eq_not, Bool.not_true, decide_eq_false_iff_not]
  intro hcs
  rw [hcs] at hc
  exact hn hc

theorem feeValue_feeRule (text : String) : feeRule text (feeValue text) := by
  refine ⟨?_, ?_, ?_⟩
  · intro h; rw [feeValue_eq, if_neg h]
  · intro h; rw [feeValue_eq, if_pos h]
  · intro h
    have hm : '≈' ∈ text.data := List.count_pos_iff.mp (by omega)
    rw [feeValue_eq, if_pos hm, betweenMarkers_of_count_one text h]

/-! ## The claims -/

/-- C1: on the integers 1..702 `ConvertNumToChar` returns no error and is a
bijection onto the strings of one or two letters A-Z; 1, 26, 27, 52 and 53
give "A", "Z", "AA", "AZ" and "BA". -/
theorem ConvertNumToChar_bijection :
    (∀ n : Int, 1 ≤ n → n ≤ 702 →
      ∃ s : String, ConvertNumToChar n = some (s, none) ∧ (s.length = 1 ∨ s.length = 2) ∧
        ∀ c ∈ s.data, c.isUpper = true) ∧
    (∀ m n : Int, 1 ≤ m → m ≤ 702 → 1 ≤ n → n ≤ 702 →
      ConvertNumToChar m = ConvertNumToChar n → m = n) ∧
    (∀ s : String, (s.length = 1 ∨ s.length = 2) → (∀ c ∈ s.data, c.isUpper = true) →
      ∃ n : Int, 1 ≤ n ∧ n ≤ 702 ∧ ConvertNumToChar n = some (s, none)) ∧
    ConvertNumToChar 1 = some ("A", none) ∧ ConvertNumToChar 26 = some ("Z", none) ∧
    ConvertNumToChar 27 = some ("AA", none) ∧ ConvertNumToChar 52 = some ("AZ", none) ∧
    ConvertNumToChar 53 = some ("BA", none) := by
  refine ⟨?_, ?_, ?_, ?_, ?_, ?_, ?_, ?_⟩
  · intro n h1 h702
    obtain ⟨s, hs, hl, hu, _⟩ := ConvertNumToChar_spec n h1 h702
    exact ⟨s, hs, hl, hu⟩
  · intro m n hm1 hm702 hn1 hn702 heq
    obtain ⟨s, hs, _, _, hv⟩ := ConvertNumToChar_spec m hm1 hm702
    obtain ⟨t, ht, _, _, hw⟩ := ConvertNumToChar_spec n hn1 hn702
    rw [hs, ht] at heq
    have hst : s = t := by
      have := Option.some.inj heq
      exact (Prod.mk.inj this).1
    rw [hst] at hv
    omega
  · intro s hl hu
    rcases hl with hl | hl
    · obtain ⟨c, hc⟩ := List.length_eq_one.mp hl
      have hcu : c.isUpper = true := hu c (by rw [hc]; exact List.mem_singleton_self c)
      have hb := isUpper_bounds c hcu
      refine ⟨((c.toNat - 64 : Nat) : Int), by omega, by omega, ?_⟩
      rw [ConvertNumToChar_one_letter _ (by omega) (by omega), Int.toNat_ofNat,
        ofNat_toNat_upper c hcu, string_eq_of_data s _ hc]
      rfl
    · obtain ⟨a, b, hab⟩ := List.length_eq_two.mp hl
      have hau : a.isUpper = true := hu a (by rw [hab]; simp)
      have hbu : b.isUpper = true := hu b (by rw [hab]; simp)
      have ha := isUpper_bounds a hau
      have hb := isUpper_bounds b hbu
      refine ⟨((26 * (a.toNat - 64) + (b.toNat - 64) : Nat) : Int), by omega, by omega, ?_⟩
      rw [ConvertNumToChar_two_letters _ (by omega) (by omega)]
      have hk : (((26 * (a.toNat - 64) + (b.toNat - 64) : Nat) : Int) - 1) % 26 + 1 =
          ((b.toNat - 64 : Nat) : Int) := by omega
      have hv : ((((26 * (a.toNat - 64) + (b.toNat - 64) : Nat) : Int)) -
          ((b.toNat - 64 : Nat) : Int)) / 26 = ((a.toNat - 64 : Nat) : Int) := by omega
      rw [hk, hv, Int.toNat_ofNat, Int.toNat_ofNat, ofNat_toNat_upper a hau,
        ofNat_toNat_upper b hbu, string_eq_of_data s _ hab]
      rfl
  · rw [ConvertNumToChar_lt 1 (by decide)]; rfl
  · rw [ConvertNumToChar_lt 26 (by decide)]; rfl
  · rw [ConvertNumToChar_two_letters 27 (by decide) (by decide)]; rfl
  · rw [ConvertNumToChar_two_letters 52 (by decide) (by decide)]; rfl
  · rw [ConvertNumToChar_two_letters 53 (by decide) (by decide)]; rfl

/-- C1, witness: 702 gives a string of one or two capital letters. -/
theorem ConvertNumToChar_bijection_witness :
    ∃ s : String, ConvertNumToChar 702 = some (s, none) ∧ (s.length = 1 ∨ s.length = 2) ∧
      ∀ c ∈ s.data, c.isUpper = true :=
  ConvertNumToChar_bijection.1 702 (by decide) (by decide)

/-- C2: a row whose first cell, trimmed of spaces and stripped of its trailing
digits, is one of the eight excluded names leaves the group and the count as
they were, whatever its other cells hold. -/
theorem getContent_tr_excluded (rows : List Row) (data_size : Int) (tr : Tr)
    (h : reg.ReplaceAllString (strings.Trim (tr.Eq_Text 0) " ") ∈
      ["中证1000股指", "沪深300股指", "上证50股指", "中证500股指", "债十", "债五", "债三十", "债二"]) :
    getContent_tr (rows, data_size) tr = (rows, data_size) := by
  apply getContent_tr_skipped
  have hn : tr.Name = reg.ReplaceAllString (strings.Trim (tr.Eq_Text 0) " ") := rfl
  rw [hn]
  simp only [List.mem_cons, List.mem_singleton, List.not_mem_nil, or_false] at h
  rcases h with h | h | h | h | h | h | h | h <;> rw [h] <;> decide

/-- C2, witness: the row of the specification that starts with `中证1000股指888`
is skipped. -/
theorem getContent_tr_excluded_witness :
    getContent_tr ([rowA], 1) excludedTr = ([rowA], 1) :=
  getContent_tr_excluded [rowA] 1 excludedTr (by decide)

/-- C3, counterexample: on the text `a≈1≈2` the fee is 1, the parse of the
text between the two markers, and neither the parse of the text after the
first marker (0) nor that of the text after the last one (2). -/
theorem feeValue_two_markers :
    '≈' ∈ ("a≈1≈2" : String).data ∧ feeValue "a≈1≈2" = 1 ∧
      feeValue "a≈1≈2" ≠ cast.ToFloat64 (strings.Trim (afterMarker "a≈1≈2") " ") ∧
      feeValue "a≈1≈2" ≠ cast.ToFloat64 (strings.Trim (afterLastMarker "a≈1≈2") " ") := by
  have h1 : feeValue "a≈1≈2" = 1 := by
    rw [feeValue_eq, if_pos (by decide)]
    have : strings.Trim (betweenMarkers "a≈1≈2") " " = "1" := by decide
    rw [this, ToFloat64_1]
  have h2 : strings.Trim (afterMarker "a≈1≈2") " " = "1≈2" := by decide
  have h3 : strings.Trim (afterLastMarker "a≈1≈2") " " = "2" := by decide
  refine ⟨by decide, h1, ?_, ?_⟩
  · rw [h1, h2, ToFloat64_1_marker_2]; norm_num
  · rw [h1, h3, ToFloat64_2]; norm_num

/-- C3, amended: each of the three fee fields of a kept row follows the fee
rule on the trimmed text of its cell (the whole text without a marker, the
text between the first marker and the next with one), and a text that does
not parse gives 0. -/
theorem getContent_tr_fees (rows : List Row) (data_size : Int) (tr : Tr)
    (h : nameKept tr.Name = true) :
    ∃ row : Row, getContent_tr (rows, data_size) tr = (rows ++ [row], data_size + 1) ∧
      feeRule (strings.Trim (tr.Eq_Text 8) " ") row.BuyFee ∧
      feeRule (strings.Trim (tr.Eq_Text 9) " ") row.SellTodayFee ∧
      feeRule (strings.Trim (tr.Eq_Text 10) " ") row.SellYesterdayFee ∧
      ∀ text : String, strconv.ParseFloat text = none → cast.ToFloat64 text = 0 :=
  ⟨getContent_row tr, getContent_tr_kept rows data_size tr h, feeValue_feeRule _,
    feeValue_feeRule _, feeValue_feeRule _, ToFloat64_of_syntax_error⟩

/-- C3, witness: the fee texts `开仓:10.5元≈12.3`, `15` and `abc` give 12.3, 15
and 0. -/
theorem getContent_tr_fees_witness :
    ∃ row : Row, getContent_tr ([], 0) feeTr = ([row], 1) ∧
      row.BuyFee = 12.3 ∧ row.SellTodayFee = 15 ∧ row.SellYesterdayFee = 0 := by
  obtain ⟨row, hrow, h8, h9, h10, _⟩ := getContent_tr_fees [] 0 feeTr (by decide)
  refine ⟨row, hrow, ?_, ?_, ?_⟩
  · have e : strings.Trim (betweenMarkers (strings.Trim (feeTr.Eq_Text 8) " ")) " " = "12.3" := by
      decide
    rw [h8.2.1 (by decide), e, ToFloat64_12_3]
  · have e : strings.Trim (feeTr.Eq_Text 9) " " = "15" := by decide
    rw [h9.1 (by decide), e, ToFloat64_15]
  · have e : strings.Trim (feeTr.Eq_Text 10) " " = "abc" := by decide
    rw [h10.1 (by decide), e, ToFloat64_abc]

/-- C7, counterexample: `ConvertNumToChar(0)` returns the empty string and a
nil error. -/
theorem ConvertNumToChar_zero :
    ConvertNumToChar 0 = some ("", none) ∧
      ¬ ∃ s err, ConvertNumToChar 0 = some (s, some err) := by
  have h : ConvertNumToChar 0 = some ("", none) := by
    rw [ConvertNumToChar_lt 0 (by decide)]; rfl
  refine ⟨h, ?_⟩
  rintro ⟨s, err, hs⟩
  rw [h] at hs
  simp at hs

/-- C7, amended: below 1 `ConvertNumToChar` returns no error value: 0 gives
the empty string with a nil error, and a negative number makes the indexing
of `ExcelChar` panic, so that nothing is returned. -/
theorem ConvertNumToChar_below_one (n : Int) (h : n < 1) :
    (n = 0 → ConvertNumToChar n = some ("", none)) ∧
    (n < 0 → ConvertNumToChar n = none) ∧
    ∀ s err, ConvertNumToChar n ≠ some (s, some err) := by
  rw [ConvertNumToChar_lt n (by omega)]
  refine ⟨?_, ?_, ?_⟩
  · intro h0; subst h0; rfl
  · intro hneg; simp [index, hneg]
  · intro s err
    cases index ExcelChar n <;> simp

/-- C7, witness: `ConvertNumToChar(-3)` panics. -/
theorem ConvertNumToChar_below_one_witness : ConvertNumToChar (-3) = none :=
  (ConvertNumToChar_below_one (-3) (by decide)).2.1 (by decide)

/-- C8, counterexample: a row of two cells whose name is not excluded is
appended to the group and counted. -/
theorem getContent_tr_short :
    shortTr.td.length < 14 ∧ (getContent_tr ([], 0) shortTr).1.length = 1 ∧
      (getContent_tr ([], 0) shortTr).2 = 1 := by
  decide

/-- C8, amended: a row of fewer than 14 cells is skipped exactly when its name
is excluded; otherwise its record is appended and counted, every missing cell
reading as the empty text, so that its tick net profit is 0. -/
theorem getContent_tr_few_cells (rows : List Row) (data_size : Int) (tr : Tr)
    (h : tr.td.length < 14) :
    (nameKept tr.Name = false → getContent_tr (rows, data_size) tr = (rows, data_size)) ∧
    (nameKept tr.Name = true →
      ∃ row : Row, getContent_tr (rows, data_size) tr = (rows ++ [row], data_size + 1) ∧
        row.OneDotNetProfile = 0) ∧
    ∀ i : Nat, tr.td.length ≤ i → tr.Eq_Text i = "" := by
  have hmiss : ∀ i : Nat, tr.td.length ≤ i → tr.Eq_Text i = "" := by
    intro i hi
    simp only [Tr.Eq_Text]
    exact List.getD_eq_default _ _ hi
  refine ⟨getContent_tr_skipped _ tr, ?_, hmiss⟩
  intro hk
  refine ⟨getContent_row tr, getContent_tr_kept rows data_size tr hk, ?_⟩
  have e : strings.Trim "" " " = "" := by decide
  simp only [getContent_row, hmiss 13 (by omega), e, ToFloat64_empty]

/-- C8, witness: the row of two cells gives a record whose tick net profit
is 0. -/
theorem getContent_tr_few_cells_witness :
    ∃ row : Row, getContent_tr ([], 0) shortTr = ([row], 1) ∧ row.OneDotNetProfile = 0 :=
  (getContent_tr_few_cells [] 0 shortTr (by decide)).2.1 (by decide)

/-- C9, counterexample: a page with a title and no exchange section is
extracted without error, with no group and a count of 0. -/
theorem getContent_emptyPage :
    emptyPage.panels = [] ∧
      getContent emptyPage = .ok ("期货手续费和保证金2024-11-19 20:33:51", ⟨[], [], 0⟩) :=
  ⟨rfl, rfl⟩

/-- C9, amended: for a page whose title has a timestamp after the full-width
colon and which has no exchange section, extraction returns the title, no
exchange name, no group and a count of 0, and no error. -/
theorem getContent_no_panels (doc : Doc) (h : 1 < (strings.Split doc.h1_small '：').length)
    (hp : doc.panels = []) :
    getContent doc =
      .ok ("期货手续费和保证金" ++ (strings.Split doc.h1_small '：').getD 1 "", ⟨[], [], 0⟩) := by
  rw [getContent_eq doc h, hp]
  simp [groupsFrom]

/-- C9, witness: the page with a title and no exchange section. -/
theorem getContent_no_panels_witness :
    getContent emptyPage =
      .ok ("期货手续费和保证金" ++ (strings.Split emptyPage.h1_small '：').getD 1 "", ⟨[], [], 0⟩) :=
  getContent_no_panels emptyPage (by decide) rfl

/-- C10, counterexample: the open-fee text of the record of a row whose cell
is `开仓:10.5元≈12.3` is the whole cell text, marker and value included, and
not the text before the marker. -/
theorem fee_text_keeps_marker :
    nameKept feeTr.Name = true ∧ '≈' ∈ (feeTr.Eq_Text 8).data ∧
      (getContent_tr ([], 0) feeTr).1.map Row.BuyFeeStr = ["开仓:10.5元≈12.3"] ∧
      (getContent_tr ([], 0) feeTr).1.map Row.BuyFeeStr ≠ [beforeMarker (feeTr.Eq_Text 8)] := by
  decide

/-- C10, amended: each textual fee field of a kept row is the whole trimmed
text of its cell, so that it contains the marker whenever the cell does. -/
theorem getContent_tr_fee_texts (rows : List Row) (data_size : Int) (tr : Tr)
    (h : nameKept tr.Name = true) :
    ∃ row : Row, getContent_tr (rows, data_size) tr = (rows ++ [row], data_size + 1) ∧
      row.BuyFeeStr = strings.Trim (tr.Eq_Text 8) " " ∧
      row.SellTodayFeeStr = strings.Trim (tr.Eq_Text 9) " " ∧
      row.SellYesterdayFeeStr = strings.Trim (tr.Eq_Text 10) " " ∧
      ('≈' ∈ (tr.Eq_Text 8).data → '≈' ∈ row.BuyFeeStr.data) ∧
      ('≈' ∈ (tr.Eq_Text 9).data → '≈' ∈ row.SellTodayFeeStr.data) ∧
      ('≈' ∈ (tr.Eq_Text 10).data → '≈' ∈ row.SellYesterdayFeeStr.data) :=
  ⟨getContent_row tr, getContent_tr_kept rows data_size tr h, rfl, rfl, rfl,
    marker_mem_Trim _, marker_mem_Trim _, marker_mem_Trim _⟩

/-- C10, witness: the open-fee text of the record of the row with the cell
`开仓:10.5元≈12.3` contains the marker. -/
theorem getContent_tr_fee_texts_witness :
    ∃ row : Row, getContent_tr ([], 0) feeTr = ([row], 1) ∧ '≈' ∈ row.BuyFeeStr.data := by
  obtain ⟨row, hrow, _, _, _, h8, _, _⟩ := getContent_tr_fee_texts [] 0 feeTr (by decide)
  exact ⟨row, hrow, h8 (by decide)⟩

theorem mem_toExcel (header : String) (exchange_names : List String) (dataes : RowMap)
    (data_size : Int) (SaveAs : String → Option error) (out : Option (Except error File)) :
    out ∈ toExcel header exchange_names dataes data_size SaveAs ↔
      ∃ visit : List (Int × List Row), visit.Perm dataes ∧
        out = toExcelIn visit header data_size SaveAs := by
  simp only [toExcel, List.mem_map, List.mem_permutations]
  constructor
  · rintro ⟨visit, hp, rfl⟩; exact ⟨visit, hp, rfl⟩
  · rintro ⟨visit, hp, rfl⟩; exact ⟨visit, hp, rfl⟩

theorem alertColumn_6 (row : Row) : alertColumn row 6 ↔ row.BuyFee > 30 := by
  simp [alertColumn]

theorem alertColumn_7 (row : Row) : alertColumn row 7 ↔ row.SellTodayFee > 30 := by
  simp [alertColumn]

theorem alertColumn_8 (row : Row) : alertColumn row 8 ↔ row.SellYesterdayFee > 30 := by
  simp [alertColumn]

theorem alertColumn_10 (row : Row) : alertColumn row 10 ↔ row.BuySellFee > 20 := by
  simp [alertColumn]

theorem alertColumn_11 (row : Row) : alertColumn row 11 ↔ row.OneDotNetProfile < 0 := by
  simp [alertColumn]

theorem alertColumn_2 (row : Row) :
    alertColumn row 2 ↔
      (row.BuyFee > 30 ∨ row.SellTodayFee > 30 ∨ row.SellYesterdayFee > 30 ∨
        row.BuySellFee > 20) := by
  simp [alertColumn]

/-- C4: for every order `visit` in which the groups can be visited, the run of
`toExcel` in that order is one of its outcomes (and every outcome is such a
run), and it ends in one of three ways.  It returns the error of the first
`SetCellStyle` when row `data_size + 2` is not on the sheet (below 1 or beyond
1048576).  It returns the error of `SaveAs` when the file cannot be saved.
Otherwise it saves a file in which every record is rendered as the claim
says: for the record written `k`-th, at row `3 + k` of the sheet, the name
cell in column B holds the name and code, the cell of the open fee, the
close-today fee, the close-yesterday fee, the combined fee and the tick net
profit carries the alert style exactly when the value is over 30, over 30,
over 30, over 20 and below 0, and the name cell exactly when one of the first
four holds; a record whose row would lie beyond the last row of the sheet is
not rendered, its cells having no value and no style. -/
theorem toExcel_alert_styles (header : String) (exchange_names : List String) (dataes : RowMap)
    (data_size : Int) (SaveAs : String → Option error) (visit : List (Int × List Row))
    (hv : visit.Perm dataes) :
    toExcelIn visit header data_size SaveAs ∈
      toExcel header exchange_names dataes data_size SaveAs ∧
    (∀ out ∈ toExcel header exchange_names dataes data_size SaveAs,
      ∃ v : List (Int × List Row), v.Perm dataes ∧
        out = toExcelIn v header data_size SaveAs) ∧
    (((data_size + 2 < 1 ∨ 1048576 < data_size + 2) ∧
        ∃ err, toExcelIn visit header data_size SaveAs = some (.error err)) ∨
      (1 ≤ data_size + 2 ∧ data_size + 2 ≤ 1048576 ∧
        ∃ err, SaveAs (strings.ReplaceAll header ':' ++ ".xlsx") = some err ∧
          toExcelIn visit header data_size SaveAs = some (.error err)) ∨
      (1 ≤ data_size + 2 ∧ data_size + 2 ≤ 1048576 ∧
        SaveAs (strings.ReplaceAll header ':' ++ ".xlsx") = none ∧
        ∃ f : File, toExcelIn visit header data_size SaveAs = some (.ok f) ∧
          ∀ (k : Nat) (row : Row), (recordsIn visit)[k]? = some row →
            (3 + (k : Int) ≤ 1048576 →
              ∃ nB nF nG nH nJ nK : String,
                GetColumnName 2 (3 + k) = some nB ∧ GetColumnName 6 (3 + k) = some nF ∧
                GetColumnName 7 (3 + k) = some nG ∧ GetColumnName 8 (3 + k) = some nH ∧
                GetColumnName 10 (3 + k) = some nJ ∧ GetColumnName 11 (3 + k) = some nK ∧
                f.valueAt nB = some (.str row.NameCode) ∧
                (f.styleAt nF = some .red_font ↔ row.BuyFee > 30) ∧
                (f.styleAt nG = some .red_font ↔ row.SellTodayFee > 30) ∧
                (f.styleAt nH = some .red_font ↔ row.SellYesterdayFee > 30) ∧
                (f.styleAt nJ = some .red_font ↔ row.BuySellFee > 20) ∧
                (f.styleAt nK = some .red_font ↔ row.OneDotNetProfile < 0) ∧
                (f.styleAt nB = some .red_font ↔
                  (row.BuyFee > 30 ∨ row.SellTodayFee > 30 ∨ row.SellYesterdayFee > 30 ∨
                    row.BuySellFee > 20))) ∧
            (1048576 < 3 + (k : Int) →
              ∀ c : Int, 1 ≤ c → c ≤ 11 →
                ∃ n : String, GetColumnName c (3 + k) = some n ∧ f.valueAt n = none ∧
                  f.styleAt n = none))) := by
  refine ⟨(mem_toExcel _ _ _ _ _ _).mpr ⟨visit, hv, rfl⟩,
    fun out hout => (mem_toExcel _ _ _ _ _ _).mp hout, ?_⟩
  by_cases hd : data_size + 2 < 1 ∨ 1048576 < data_size + 2
  · exact Or.inl ⟨hd, _, toExcelIn_error visit header data_size SaveAs (by omega)⟩
  · right
    have hd1 : -1 ≤ data_size := by omega
    have hd2 : data_size ≤ 1048574 := by omega
    cases hs : SaveAs (strings.ReplaceAll header ':' ++ ".xlsx") with
    | some err =>
      exact Or.inl ⟨by omega, by omega, err, rfl,
        toExcelIn_SaveAs_error visit header data_size SaveAs hd1 hd2 err hs⟩
    | none =>
      right
      refine ⟨by omega, by omega, rfl, _, toExcelIn_eq visit header data_size SaveAs hd1 hd2 hs, ?_⟩
      intro k row hk
      constructor
      · intro hmax
        have S := fun (c : Nat) (h1 : 1 ≤ c) (h26 : c ≤ 26) =>
          styleAt_rendered visit data_size (strings.ReplaceAll header ':' ++ ".xlsx") k row hk
            hmax c h1 h26
        have V := valueAt_rendered visit data_size (strings.ReplaceAll header ':' ++ ".xlsx") k
          row hk hmax 2 (by decide) (by decide)
        refine ⟨cellName 2 (3 + k), cellName 6 (3 + k), cellName 7 (3 + k),
          cellName 8 (3 + k), cellName 10 (3 + k), cellName 11 (3 + k),
          GetColumnName_eq 2 _ (by decide) (by decide),
          GetColumnName_eq 6 _ (by decide) (by decide),
          GetColumnName_eq 7 _ (by decide) (by decide),
          GetColumnName_eq 8 _ (by decide) (by decide),
          GetColumnName_eq 10 _ (by decide) (by decide),
          GetColumnName_eq 11 _ (by decide) (by decide), ?_, ?_, ?_, ?_, ?_, ?_, ?_⟩
        · rw [V]; rfl
        · rw [S 6 (by decide) (by decide), alertColumn_6]
        · rw [S 7 (by decide) (by decide), alertColumn_7]
        · rw [S 8 (by decide) (by decide), alertColumn_8]
        · rw [S 10 (by decide) (by decide), alertColumn_10]
        · rw [S 11 (by decide) (by decide), alertColumn_11]
        · rw [S 2 (by decide) (by decide), alertColumn_2]
      · intro hbig c hc1 hc11
        have hnone := CellNameToCoordinates_cellName_none c.toNat (3 + k) (by omega) (by omega)
          (Or.inr hbig)
        have hno := no_coordinates (headCalls data_size ++ rowsCalls 2 (recordsIn visit) ++
          [Call.SetActiveSheet, Call.SaveAs (strings.ReplaceAll header ':' ++ ".xlsx")])
          _ hnone
        exact ⟨cellName c.toNat (3 + k), GetColumnName_eq c _ hc1 (by omega), hno.2, hno.1⟩

theorem recordsIn_of_perm_singleton (visit : List (Int × List Row)) (e : Int × List Row)
    (h : visit.Perm [e]) : recordsIn visit = e.2 := by
  rw [List.perm_singleton.mp h]
  simp [recordsIn]

/-- C4, witness: for the one group of one record whose only value over a
threshold is a negative tick net profit, `toExcel` has an outcome that is a
saved file, in which the cell in column K of row 3 carries the alert style and
the name cell in column B holds the name and does not carry it. -/
theorem toExcel_alert_styles_witness :
    ∃ (f : File) (nB nK : String),
      some (.ok f) ∈ toExcel "t" [] [(0, [lossRow])] 1 savesAll ∧
      GetColumnName 2 3 = some nB ∧ GetColumnName 11 3 = some nK ∧
      f.valueAt nB = some (.str "c(3)") ∧
      f.styleAt nK = some .red_font ∧ f.styleAt nB ≠ some .red_font := by
  obtain ⟨hmem, _, hcases⟩ :=
    toExcel_alert_styles "t" [] [(0, [lossRow])] 1 savesAll [(0, [lossRow])] (List.Perm.refl _)
  rcases hcases with ⟨hd, _⟩ | ⟨_, _, err, hs, _⟩ | ⟨_, _, _, f, hf, hrows⟩
  · exact absurd hd (by decide)
  · exact absurd hs (by simp [savesAll])
  · rw [hf] at hmem
    obtain ⟨nB, nF, nG, nH, nJ, nK, hB, _, _, _, _, hK, hV, _, _, _, _, hKs, hBs⟩ :=
      (hrows 0 lossRow rfl).1 (by decide)
    refine ⟨f, nB, nK, hmem, hB, hK, hV, hKs.mpr (by norm_num [lossRow]), ?_⟩
    intro hc
    have h4 := hBs.mp hc
    norm_num [lossRow] at h4

/-- C5, at the failing input: with the groups `0 ↦ [rowA]` and `1 ↦ [rowB]`,
one of the files `toExcel` can save has the record of group 1 in row 3 and
the record of group 0 in row 4. -/
theorem toExcel_groups_reversed :
    ∃ f : File, some (.ok f) ∈ toExcel "t" ["x", "y"] [(0, [rowA]), (1, [rowB])] 2 savesAll ∧
      f.valueAt "B3" = some (.str "b(2)") ∧ f.valueAt "B4" = some (.str "a(1)") := by
  have hf := toExcelIn_eq [(1, [rowB]), (0, [rowA])] "t" 2 savesAll (by decide) (by decide) rfl
  refine ⟨_, (mem_toExcel _ _ _ _ _ _).mpr ⟨[(1, [rowB]), (0, [rowA])], List.Perm.swap _ _ _,
    hf.symm⟩, ?_, ?_⟩
  · have h := valueAt_rendered [(1, [rowB]), (0, [rowA])] 2
      (strings.ReplaceAll "t" ':' ++ ".xlsx") 0 rowB rfl (by decide) 2 (by decide) (by decide)
    have e : cellName 2 (3 + ((0 : Nat) : Int)) = "B3" := by decide
    rw [e] at h
    rw [h]
    rfl
  · have h := valueAt_rendered [(1, [rowB]), (0, [rowA])] 2
      (strings.ReplaceAll "t" ':' ++ ".xlsx") 1 rowA rfl (by decide) 2 (by decide) (by decide)
    have e : cellName 2 (3 + ((1 : Nat) : Int)) = "B4" := by decide
    rw [e] at h
    rw [h]
    rfl

/-- C6: for a page whose title has a timestamp after the full-width colon,
extraction returns a result whose total count is the number of rows that pass
the row selector and whose name is kept, and is the sum of the sizes of the
groups; a row whose name is excluded leaves the count as it was. -/
theorem getContent_data_size (doc : Doc) (h : 1 < (strings.Split doc.h1_small '：').length) :
    ∃ (header : String) (r : Extracted), getContent doc = .ok (header, r) ∧
      r.data_size =
        ((doc.panels.map
          (fun s => (s.trs.filter (fun tr => nameKept tr.Name)).length)).sum : Nat) ∧
      r.data_size = ((r.dataes.map (fun e => e.2.length)).sum : Nat) ∧
      ∀ (rows : List Row) (n : Int) (tr : Tr), nameKept tr.Name = false →
        (getContent_tr (rows, n) tr).2 = n := by
  refine ⟨_, _, getContent_eq doc h, ?_, ?_, ?_⟩
  · simp [Panel.records]
  · simp only [groupsFrom_sizes]
  · intro rows n tr hk
    rw [getContent_tr_skipped _ tr hk]

theorem copper_BuyFee : (getContent_row copperTr).BuyFee = 35 := by
  have e : strings.Trim (copperTr.Eq_Text 8) " " = "35" := by decide
  simp only [getContent_row, e]
  rw [feeValue_eq, if_neg (by decide), ToFloat64_35]

/-- C6, witness: the page with one excluded-name row and one row with an open
fee of 35 has a total count of 1; `toExcel` has an outcome on it, and every
outcome is a saved file in which the open-fee cell F3 and the name cell B3
carry the alert style. -/
theorem getContent_data_size_witness :
    ∃ (header : String) (r : Extracted), getContent examplePage = .ok (header, r) ∧
      r.data_size = 1 ∧
      toExcel header r.exchange_names r.dataes r.data_size savesAll ≠ [] ∧
      ∀ out ∈ toExcel header r.exchange_names r.dataes r.data_size savesAll,
        ∃ f : File, out = some (.ok f) ∧ f.styleAt "F3" = some .red_font ∧
          f.styleAt "B3" = some .red_font := by
  obtain ⟨header, r, hget, hcount, _, _⟩ := getContent_data_size examplePage (by decide)
  have hr := hget
  rw [getContent_eq examplePage (by decide)] at hr
  have hr2 := (Prod.mk.inj (Except.ok.inj hr)).2
  have hdataes : r.dataes = [(0, [getContent_row copperTr])] := by rw [← hr2]; rfl
  have hsize : r.data_size = 1 := by rw [hcount]; decide
  refine ⟨header, r, hget, hsize, ?_, ?_⟩
  · exact List.ne_nil_of_mem
      ((mem_toExcel _ _ _ _ _ _).mpr ⟨r.dataes, List.Perm.refl _, rfl⟩)
  intro out hout
  obtain ⟨visit, hp, rfl⟩ := (mem_toExcel _ _ _ _ _ _).mp hout
  rw [hdataes] at hp
  rw [hsize]
  have hf := toExcelIn_eq visit header 1 savesAll (by decide) (by decide) rfl
  have hrec : (recordsIn visit)[0]? = some (getContent_row copperTr) := by
    rw [recordsIn_of_perm_singleton visit _ hp]; rfl
  have S := fun (c : Nat) (h1 : 1 ≤ c) (h26 : c ≤ 26) =>
    styleAt_rendered visit 1 (strings.ReplaceAll header ':' ++ ".xlsx") 0 _ hrec (by decide)
      c h1 h26
  have eF : cellName 6 (3 + ((0 : Nat) : Int)) = "F3" := by decide
  have eB : cellName 2 (3 + ((0 : Nat) : Int)) = "B3" := by decide
  refine ⟨_, hf, ?_, ?_⟩
  · rw [← eF, S 6 (by decide) (by decide), alertColumn_6, copper_BuyFee]
    norm_num
  · rw [← eB, S 2 (by decide) (by decide), alertColumn_2, copper_BuyFee]
    norm_num

end FutureFee
